import Mathlib

/-!
Verification of the core logic of the `mattthinking` reasoning-bank service
(`src/reasoning-bank-mcp`): composite memory scoring and weight normalization
(`reasoning_bank_core.py`), the retrieval pipeline's handling of backend
similarity metadata (`storage_adapter.py`), the caching LLM client
(`cached_llm_client.py`), and the iterative reasoning loop and MaTTS
parallel search (`iterative_agent.py`).

Embedding conventions:
- Python floats are embedded as exact rationals (`ℚ`).  None of the
  properties verified here depends on binary64 rounding: every concrete
  instance uses values whose float computations are exact or whose
  comparisons hold with wide margins.
- Python `Optional[T]` becomes `Option T`; `dict` payloads become
  association lists; Python truthiness of floats, strings, dicts and
  `None` is modelled explicitly where the source relies on it.
- The transcendental recency computation `exp(-age_days / half_life)`
  together with ISO-timestamp parsing is abstracted as an oracle
  `recencyOf : String → Option ℚ` (`none` = the `try` block raised, i.e.
  an unparsable timestamp); the claims under verification constrain only
  the default path, never the value of the exponential itself.
- Effectful collaborators (the LLM, the wall clock, thread completion
  order) are inputs of the embedded functions, so each embedded operation
  is a pure function of its inputs plus the collaborator outcomes.
-/

namespace Mattthinking

/-! ### Composite scoring (`reasoning_bank_core.py`) -/

/-- Python `x or default` on an optional float: `None` and `0.0` are falsy,
so both select the default.  Mirrors
`similarity = memory.similarity_score or 0.5` at
`reasoning_bank_core.py:416`. -/
def pyFloatOr (x : Option ℚ) (default : ℚ) : ℚ :=
  match x with
  | Option.none => default
  | Option.some v => if v = 0 then default else v

/-- Python truthiness of an `Optional[Dict]`: `None` and the empty dict are
falsy.  Used by `if memory.error_context:` at `reasoning_bank_core.py:440`. -/
def ctxTruthy (ctx : Option (List (String × String))) : Bool :=
  match ctx with
  | Option.none => false
  | Option.some l => !l.isEmpty

/-- Clamp to the unit interval, as `max(0.0, min(1.0, composite))`
(`reasoning_bank_core.py:452`). -/
def clamp01 (x : ℚ) : ℚ := max 0 (min 1 x)

/-- The `MemoryItem` dataclass of `reasoning_bank_core.py` (the fields the
scoring path reads, plus the ephemeral scoring fields). -/
structure MemoryItem where
  id : String
  title : String
  description : String
  content : String
  error_context : Option (List (String × String))
  parent_memory_id : Option String
  derived_from : Option (List String)
  evolution_stage : ℕ
  pattern_tags : Option (List String)
  difficulty_level : Option String
  domain_category : Option String
  similarity_score : Option ℚ
  recency_score : Option ℚ
  composite_score : Option ℚ
  trace_outcome : Option String
  trace_timestamp : Option String
  deriving Repr, DecidableEq

/-- The `MemoryItemSchema` Pydantic model of `schemas.py` (scoring-relevant
fields).  Note it has *no* similarity or trace-timestamp field. -/
structure MemoryItemSchema where
  id : String
  title : String
  description : String
  content : String
  error_context : Option (List (String × String))
  parent_memory_id : Option String
  derived_from : Option (List String)
  evolution_stage : ℕ
  pattern_tags : Option (List String)
  difficulty_level : Option String
  domain_category : Option String
  deriving Repr, DecidableEq

/-- `MemoryItem.from_schema` (`reasoning_bank_core.py:101-116`): copies the
schema fields; the dataclass defaults (`None`) fill every field the schema
does not carry — in particular `similarity_score` and `trace_timestamp`. -/
def MemoryItem.from_schema (schema : MemoryItemSchema) : MemoryItem where
  id := schema.id
  title := schema.title
  description := schema.description
  content := schema.content
  error_context := schema.error_context
  parent_memory_id := schema.parent_memory_id
  derived_from := schema.derived_from
  evolution_stage := schema.evolution_stage
  pattern_tags := schema.pattern_tags
  difficulty_level := schema.difficulty_level
  domain_category := schema.domain_category
  similarity_score := Option.none
  recency_score := Option.none
  composite_score := Option.none
  trace_outcome := Option.none
  trace_timestamp := Option.none

/-- `ReasoningBank.compute_composite_score` (`reasoning_bank_core.py:389-454`).
The weights are the bank's (already normalized) weights; `recencyOf` abstracts
the timestamp-parse plus exponential-decay computation of lines 420-436
(`none` models the `except` path, i.e. an unparsable timestamp). -/
def compute_composite_score (similarity_weight recency_weight error_weight : ℚ)
    (recencyOf : String → Option ℚ) (memory : MemoryItem) : ℚ :=
  let similarity := pyFloatOr memory.similarity_score (1/2)
  let recency : ℚ :=
    match memory.trace_timestamp with
    | Option.none => 1/2
    | Option.some ts => if ts = "" then 1/2 else (recencyOf ts).getD (1/2)
  let error_boost : ℚ := if ctxTruthy memory.error_context then 1 else 0
  clamp01 (similarity_weight * similarity + recency_weight * recency +
    error_weight * error_boost)

/-- The composite-score formula exactly as the spec words it (for comparison
with the code): `wSim·similarity + wRec·recency + wErr·errorBoost` clamped,
with `similarity` the value the MemoryStore returned for the record. -/
def spec_composite (wSim wRec wErr similarity recency : ℚ)
    (hasErrorContext : Bool) : ℚ :=
  clamp01 (wSim * similarity + wRec * recency +
    wErr * (if hasErrorContext then 1 else 0))

/-- Python `math.isclose(a, b, rel_tol=rel)` with the default `abs_tol=0.0`:
true iff the difference is within `rel` of the larger magnitude. -/
def isclose (a b rel : ℚ) : Bool := decide (|a - b| ≤ rel * max |a| |b|)

/-- The weight validation of `ReasoningBank.__init__`
(`reasoning_bank_core.py:196-212`): the three weights are stored as given
when `math.isclose(total, 1.0, rel_tol=0.01)`, and are each divided by their
total otherwise. -/
def reasoning_bank_weights (similarity_weight recency_weight error_weight : ℚ) :
    ℚ × ℚ × ℚ :=
  let total := similarity_weight + recency_weight + error_weight
  if isclose total 1 (1/100) then
    (similarity_weight, recency_weight, error_weight)
  else
    (similarity_weight / total, recency_weight / total, error_weight / total)

/-! ### The retrieval pipeline's metadata stripping (`storage_adapter.py`)

`query_similar_memories` (lines 398-479) converts each ChromaDB distance to
`similarity_score = 1.0 / (1.0 + distance)`, writes it into a dict copy of the
schema under the key `"_similarity_score"` (likewise `"_trace_outcome"` and
`"_trace_timestamp"`), and then rebuilds the returned `MemoryItemSchema` from
that dict *filtered to the keys that do not start with an underscore*.  We
model the dict as an association list of `PyValue`s, mirror the dump, the
metadata insertion and the filter, and re-parse. -/

/-- Python `key.startswith("_")` for the one-character prefix used by the
filter (expressed on the character list so that it evaluates in the kernel). -/
def startswith_underscore (s : String) : Bool := s.data.head? == Option.some '_'

/-- Values appearing in the dict dump of a `MemoryItemSchema`. -/
inductive PyValue where
  | vNone
  | vStr (s : String)
  | vNum (q : ℚ)
  | vNat (n : ℕ)
  | vStrList (l : List String)
  | vPairs (l : List (String × String))
  | vOptStr (s : Option String)
  | vOptStrList (l : Option (List String))
  | vOptPairs (l : Option (List (String × String)))
  deriving Repr, DecidableEq

/-- `memory.model_dump()`: the schema's own fields, keyed by their names.
No schema field name starts with an underscore. -/
def model_dump (m : MemoryItemSchema) : List (String × PyValue) :=
  [("id", PyValue.vStr m.id),
   ("title", PyValue.vStr m.title),
   ("description", PyValue.vStr m.description),
   ("content", PyValue.vStr m.content),
   ("error_context", PyValue.vOptPairs m.error_context),
   ("parent_memory_id", PyValue.vOptStr m.parent_memory_id),
   ("derived_from", PyValue.vOptStrList m.derived_from),
   ("evolution_stage", PyValue.vNat m.evolution_stage),
   ("pattern_tags", PyValue.vOptStrList m.pattern_tags),
   ("difficulty_level", PyValue.vOptStr m.difficulty_level),
   ("domain_category", PyValue.vOptStr m.domain_category)]

/-- Reads one field back out of a dumped dict. -/
def dictGet (d : List (String × PyValue)) (key : String) : Option PyValue :=
  (d.find? (fun kv => kv.1 = key)).map Prod.snd

/-- Rebuilding `MemoryItemSchema(**dict)`: `none` models a Pydantic
validation error (missing or ill-typed field). -/
def schema_from_dict (d : List (String × PyValue)) : Option MemoryItemSchema :=
  match dictGet d "id", dictGet d "title", dictGet d "description",
      dictGet d "content", dictGet d "error_context",
      dictGet d "parent_memory_id", dictGet d "derived_from",
      dictGet d "evolution_stage", dictGet d "pattern_tags",
      dictGet d "difficulty_level", dictGet d "domain_category" with
  | Option.some (PyValue.vStr i), Option.some (PyValue.vStr t),
    Option.some (PyValue.vStr de), Option.some (PyValue.vStr c),
    Option.some (PyValue.vOptPairs ec), Option.some (PyValue.vOptStr pm),
    Option.some (PyValue.vOptStrList df), Option.some (PyValue.vNat es),
    Option.some (PyValue.vOptStrList pt), Option.some (PyValue.vOptStr dl),
    Option.some (PyValue.vOptStr dc) =>
      Option.some
        { id := i, title := t, description := de, content := c,
          error_context := ec, parent_memory_id := pm, derived_from := df,
          evolution_stage := es, pattern_tags := pt, difficulty_level := dl,
          domain_category := dc }
  | _, _, _, _, _, _, _, _, _, _, _ => Option.none

/-- One result row of `query_similar_memories` (`storage_adapter.py:442-469`):
dump the stored payload, attach the retrieval metadata under
underscore-prefixed keys, then rebuild the schema from the dict restricted to
keys that do not start with an underscore. -/
def query_similar_row (payload : MemoryItemSchema) (distance : ℚ)
    (outcome timestamp : Option String) : Option MemoryItemSchema :=
  let similarity_score : ℚ := 1 / (1 + distance)
  let memory_dict :=
    model_dump payload ++
      [("_similarity_score", PyValue.vNum similarity_score),
       ("_trace_outcome", PyValue.vOptStr outcome),
       ("_trace_timestamp", PyValue.vOptStr timestamp)]
  schema_from_dict (memory_dict.filter (fun kv => !startswith_underscore kv.1))

/-- The score `retrieve_memories` (`reasoning_bank_core.py:353-367`) assigns
to one retrieved record: convert the schema returned by the storage adapter
with `MemoryItem.from_schema`, then `compute_composite_score`. -/
def retrieve_score (similarity_weight recency_weight error_weight : ℚ)
    (recencyOf : String → Option ℚ) (payload : MemoryItemSchema)
    (distance : ℚ) (outcome timestamp : Option String) : Option ℚ :=
  (query_similar_row payload distance outcome timestamp).map
    (fun schema =>
      compute_composite_score similarity_weight recency_weight error_weight
        recencyOf (MemoryItem.from_schema schema))

/-- A concrete stored payload used as failing input for the retrieval-scoring
claim: an ordinary memory with no error context. -/
def samplePayload : MemoryItemSchema where
  id := "mem-1"
  title := "Sample memory title"
  description := "A sample description of the memory."
  content := "Sample content describing a learned pattern in detail."
  error_context := Option.none
  parent_memory_id := Option.none
  derived_from := Option.some []
  evolution_stage := 0
  pattern_tags := Option.some []
  difficulty_level := Option.none
  domain_category := Option.none

/-! ### Cached LLM client (`cached_llm_client.py`)

`CachedLLMClient` keys its `OrderedDict` cache by a SHA256 hash of the
normalized request; we embed at the key level (`K` with decidable equality)
and model the `OrderedDict` as a list of `(key, result, timestamp)` entries
in insertion/recency order — the head is the oldest entry, exactly what
`popitem(last=False)` removes.  The wall clock (`time.time()`) and the
underlying `ResponsesAPIClient.create` result are inputs of each operation;
`api_calls` counts the invocations of the underlying client made by the
operation. -/

/-- Configuration of `CachedLLMClient.__init__` (`cached_llm_client.py:70-101`). -/
structure CacheConfig where
  max_cache_size : ℕ
  ttl_seconds : ℚ
  enable_cache : Bool
  deriving Repr, DecidableEq

/-- Mutable state of a `CachedLLMClient`: the ordered cache and the three
statistics counters. -/
structure CacheState (K V : Type) where
  cache : List (K × V × ℚ)
  cache_hits : ℕ
  cache_misses : ℕ
  cache_bypassed : ℕ
  deriving Repr, DecidableEq

/-- The state right after `__init__`: empty cache, zeroed counters. -/
def initialCacheState (K V : Type) : CacheState K V :=
  { cache := [], cache_hits := 0, cache_misses := 0, cache_bypassed := 0 }

/-- `CachedLLMClient._is_cache_valid` (`cached_llm_client.py:152-164`):
an entry is valid while `current_time - timestamp < ttl_seconds`. -/
def is_cache_valid (cfg : CacheConfig) (current_time timestamp : ℚ) : Bool :=
  decide (current_time - timestamp < cfg.ttl_seconds)

/-- `CachedLLMClient._evict_oldest` (`cached_llm_client.py:166-175`):
`popitem(last=False)` removes the first (oldest) entry; no-op when empty. -/
def evict_oldest {K V : Type} (cache : List (K × V × ℚ)) : List (K × V × ℚ) :=
  match cache with
  | [] => []
  | _ :: rest => rest

/-- `CachedLLMClient._evict_expired` (`cached_llm_client.py:177-194`):
drop every entry whose TTL has elapsed. -/
def evict_expired {K V : Type} (cfg : CacheConfig) (current_time : ℚ)
    (cache : List (K × V × ℚ)) : List (K × V × ℚ) :=
  cache.filter (fun e => is_cache_valid cfg current_time e.2.2)

/-- Python `del dict[key]`. -/
def cacheDelete {K V : Type} [DecidableEq K] (cache : List (K × V × ℚ))
    (key : K) : List (K × V × ℚ) :=
  cache.eraseP (fun e => decide (e.1 = key))

/-- Python `dict[key] = value` on an `OrderedDict`: update in place when the
key exists, append at the (most-recent) end otherwise. -/
def cacheInsert {K V : Type} [DecidableEq K] (cache : List (K × V × ℚ))
    (key : K) (value : V) (timestamp : ℚ) : List (K × V × ℚ) :=
  if (cache.find? (fun e => decide (e.1 = key))).isSome then
    cache.map (fun e => if e.1 = key then (key, value, timestamp) else e)
  else
    cache ++ [(key, value, timestamp)]

/-- `OrderedDict.move_to_end(key)`: move the entry to the most-recent end. -/
def move_to_end {K V : Type} [DecidableEq K] (cache : List (K × V × ℚ))
    (key : K) : List (K × V × ℚ) :=
  match cache.find? (fun e => decide (e.1 = key)) with
  | Option.none => cache
  | Option.some e => cacheDelete cache key ++ [e]

/-- Result of one `create` call: the returned value, the new client state,
and how many calls were made to the wrapped `ResponsesAPIClient`. -/
structure CreateOutcome (K V : Type) where
  result : V
  state : CacheState K V
  api_calls : ℕ
  deriving Repr, DecidableEq

/-- The miss path of `CachedLLMClient.create` (`cached_llm_client.py:274-301`):
count the miss, call the API, store the fresh result, evict the oldest entry
when over capacity, and sweep expired entries on every 10th miss. -/
def create_miss {K V : Type} [DecidableEq K] (cfg : CacheConfig)
    (s : CacheState K V) (key : K) (now : ℚ) (api_result : V) :
    CreateOutcome K V :=
  let misses := s.cache_misses + 1
  let stored := cacheInsert s.cache key api_result now
  let afterEvict :=
    if stored.length > cfg.max_cache_size then evict_oldest stored else stored
  let afterSweep :=
    if misses % 10 = 0 then evict_expired cfg now afterEvict else afterEvict
  { result := api_result,
    state := { cache := afterSweep, cache_hits := s.cache_hits,
               cache_misses := misses, cache_bypassed := s.cache_bypassed },
    api_calls := 1 }

/-- `CachedLLMClient.create` (`cached_llm_client.py:196-301`).  A call with
caching disabled or a non-zero temperature bypasses the cache; otherwise the
key is looked up and the hit / expired / absent cases are handled as in the
source. -/
def create {K V : Type} [DecidableEq K] (cfg : CacheConfig)
    (s : CacheState K V) (temperature : ℚ) (key : K) (now : ℚ)
    (api_result : V) : CreateOutcome K V :=
  if ¬ cfg.enable_cache ∨ temperature ≠ 0 then
    { result := api_result,
      state := { s with cache_bypassed := s.cache_bypassed + 1 },
      api_calls := 1 }
  else
    match s.cache.find? (fun e => decide (e.1 = key)) with
    | Option.some (_, v, ts) =>
      if is_cache_valid cfg now ts then
        { result := v,
          state :=
            { s with
              cache := move_to_end s.cache key,
              cache_hits := s.cache_hits + 1 },
          api_calls := 0 }
      else
        create_miss cfg { s with cache := cacheDelete s.cache key } key now
          api_result
    | Option.none => create_miss cfg s key now api_result

/-- A sequence of deterministic (temperature 0) requests: each op is a key,
a wall-clock time and the API result the underlying client would produce. -/
def run_creates {K V : Type} [DecidableEq K] (cfg : CacheConfig)
    (s0 : CacheState K V) (ops : List (K × ℚ × V)) : CacheState K V :=
  ops.foldl (fun s op => (create cfg s 0 op.1 op.2.1 op.2.2).state) s0

/-- The cache entry one deterministic request leaves behind. -/
def entryOf {K V : Type} (op : K × ℚ × V) : K × V × ℚ := (op.1, op.2.2, op.2.1)

/-- Capacity-10 configuration with a 5-second TTL, used to refute the
eviction scenario of the spec. -/
def sweepCfg : CacheConfig :=
  { max_cache_size := 10, ttl_seconds := 5, enable_cache := true }

/-- Eleven deterministic requests with distinct keys 1..11 at times 0..10:
capacity + 1 distinct keys, never re-accessed. -/
def sweepOps : List (ℕ × ℚ × ℕ) :=
  [(1, 0, 0), (2, 1, 0), (3, 2, 0), (4, 3, 0), (5, 4, 0), (6, 5, 0),
   (7, 6, 0), (8, 7, 0), (9, 8, 0), (10, 9, 0), (11, 10, 0)]

/-- Capacity-2 configuration with a long TTL for the fresh-insert scenario. -/
def fillCfg : CacheConfig :=
  { max_cache_size := 2, ttl_seconds := 100, enable_cache := true }

/-- Three fresh-key deterministic requests (capacity + 1) well within TTL. -/
def fillOps : List (ℕ × ℚ × ℕ) := [(1, 0, 10), (2, 1, 20), (3, 2, 30)]

/-! ### Iterative reasoning loop (`iterative_agent.py`)

`solve_task` drives a Think → Evaluate → Refine loop against the LLM.  The
environment's behaviour is an input: `events i` gives, for iteration `i`,
the `_think_step` outcome (a generated solution plus token count, or a
raised `LLMGenerationError`/`TokenBudgetExceededError` — the two `except`
arms at `iterative_agent.py:306-322` behave alike: record an error entry
and break) and the `_evaluate_step` triple (score, feedback, tokens) —
`_evaluate_step` never raises into the loop, it catches internally and
returns a 0.5 default (`iterative_agent.py:927-930`) and its score is
clamped to the unit interval by `_parse_evaluation_response`.
`_compute_trajectory_hash` (SHA256 prefix) is abstracted as a `hash`
parameter.  The refinement prompt built from the previous solution and
feedback only influences the LLM, which is already absorbed into `events`.
Alongside the loop state of the source, the embedding logs in `evalCalls`
the iterations at which `_evaluate_step` was invoked. -/

/-- Outcome of one `_think_step` call as seen by the loop. -/
inductive ThinkOutcome where
  | ok (solution : String) (tokens : ℕ)
  | err (message : String)
  deriving Repr, DecidableEq

/-- The environment's behaviour at one iteration. -/
structure IterEvent where
  think : ThinkOutcome
  evalScore : ℚ
  evalFeedback : String
  evalTokens : ℕ
  deriving Repr, DecidableEq

/-- The `action` tags of the trajectory entries `solve_task` records. -/
inductive TrajAction where
  | think
  | evaluate
  | loop_detected
  | success
  | error
  deriving Repr, DecidableEq

/-- One trajectory entry (the fields the claims speak about). -/
structure TrajEntry where
  iteration : ℕ
  action : TrajAction
  output : String
  deriving Repr, DecidableEq

/-- The `SolutionResult` dataclass (`iterative_agent.py:51-61`). -/
structure SolutionResult where
  solution : String
  score : ℚ
  trajectory : List TrajEntry
  iterations : ℕ
  total_tokens : ℕ
  early_termination : Bool
  loop_detected : Bool
  deriving Repr, DecidableEq

/-- Loop-carried state of `solve_task` (trajectory, seen hashes, best
solution and score, token counter) plus the `evalCalls` instrumentation. -/
structure RunAcc where
  trajectory : List TrajEntry
  hashes : List String
  best_solution : Option String
  best_score : ℚ
  total_tokens : ℕ
  evalCalls : List ℕ
  deriving Repr, DecidableEq

/-- Result of the loop: final state plus the two termination flags. -/
structure RunOut where
  acc : RunAcc
  early_termination : Bool
  loop_detected : Bool
  deriving Repr, DecidableEq

/-- The cleared state at the top of `solve_task`
(`iterative_agent.py:191-216`). -/
def initialRunAcc : RunAcc :=
  { trajectory := [], hashes := [], best_solution := Option.none,
    best_score := 0, total_tokens := 0, evalCalls := [] }

/-- The state after the error handler of iteration `i`
(`iterative_agent.py:306-322`): append an error trajectory entry, touch
nothing else. -/
def errAcc (i : ℕ) (msg : String) (acc : RunAcc) : RunAcc :=
  { acc with
    trajectory := acc.trajectory ++
      [{ iteration := i, action := TrajAction.error,
         output := "Error: " ++ msg }] }

/-- The state after loop detection at iteration `i`
(`iterative_agent.py:236-246`): append a loop-detected trajectory entry. -/
def loopAcc (i : ℕ) (acc : RunAcc) : RunAcc :=
  { acc with
    trajectory := acc.trajectory ++
      [{ iteration := i, action := TrajAction.loop_detected,
         output := "Reasoning loop detected, terminating" }] }

/-- The state after the hash bookkeeping, think entry, evaluate call and
best-solution update of a completed iteration `i`
(`iterative_agent.py:248-283`), starting from the state that already
counted the think tokens. -/
def thinkEvalAcc (hash : String → String) (events : ℕ → IterEvent) (i : ℕ)
    (solution : String) (acc1 : RunAcc) : RunAcc :=
  let acc2 : RunAcc := { acc1 with
    hashes := acc1.hashes ++ [hash solution],
    trajectory := acc1.trajectory ++
      [{ iteration := i, action := TrajAction.think,
         output := solution }] }
  let acc3 : RunAcc := { acc2 with
    total_tokens := acc2.total_tokens + (events i).evalTokens,
    trajectory := acc2.trajectory ++
      [{ iteration := i, action := TrajAction.evaluate,
         output := (events i).evalFeedback }],
    evalCalls := acc2.evalCalls ++ [i] }
  if (events i).evalScore > acc3.best_score then
    { acc3 with best_solution := Option.some solution,
                best_score := (events i).evalScore }
  else acc3

/-- The state after the success handler (`iterative_agent.py:285-296`). -/
def successAcc (i : ℕ) (acc4 : RunAcc) : RunAcc :=
  { acc4 with
    trajectory := acc4.trajectory ++
      [{ iteration := i, action := TrajAction.success,
         output := "Success threshold reached" }] }

/-- The `for iteration in range(1, max_iterations + 1)` loop of `solve_task`
(`iterative_agent.py:219-322`), processing iteration `i` with `remaining`
iterations (this one included) left. -/
def runIters (hash : String → String) (success_threshold : ℚ)
    (events : ℕ → IterEvent) : ℕ → ℕ → RunAcc → RunOut
  | 0, _, acc =>
    { acc := acc, early_termination := false, loop_detected := false }
  | remaining + 1, i, acc =>
    match (events i).think with
    | ThinkOutcome.err msg =>
      { acc := errAcc i msg acc,
        early_termination := false, loop_detected := false }
    | ThinkOutcome.ok solution tokens =>
      let acc1 : RunAcc :=
        { acc with total_tokens := acc.total_tokens + tokens }
      if hash solution ∈ acc1.hashes then
        { acc := loopAcc i acc1,
          early_termination := false, loop_detected := true }
      else
        let acc4 : RunAcc := thinkEvalAcc hash events i solution acc1
        if (events i).evalScore ≥ success_threshold then
          { acc := successAcc i acc4,
            early_termination := true, loop_detected := false }
        else
          runIters hash success_threshold events remaining (i + 1) acc4

/-- `IterativeReasoningAgent.solve_task` after task validation and memory
retrieval: run the loop from the cleared state, then return the best
solution found — or the fallback text with score 0.0 when `best_solution`
is still `None` (`iterative_agent.py:324-345`).  The second component is
the `evalCalls` instrumentation log. -/
def solve_task (hash : String → String) (success_threshold : ℚ)
    (max_iterations : ℕ) (events : ℕ → IterEvent) :
    SolutionResult × List ℕ :=
  let out := runIters hash success_threshold events max_iterations 1
    initialRunAcc
  let best :=
    match out.acc.best_solution with
    | Option.none => ("Failed to generate solution", (0:ℚ))
    | Option.some s => (s, out.acc.best_score)
  ({ solution := best.1,
     score := best.2,
     trajectory := out.acc.trajectory,
     iterations := (out.acc.trajectory.filter
       (fun e => e.action == TrajAction.think)).length,
     total_tokens := out.acc.total_tokens,
     early_termination := out.early_termination,
     loop_detected := out.loop_detected }, out.acc.evalCalls)

/-- Environment for a successful early-termination run: iteration 1 scores
1 (below the threshold 2), iteration 2 scores 3 (above it). -/
def c2events : ℕ → IterEvent := fun n =>
  if n = 1 then
    { think := ThinkOutcome.ok "A" 0, evalScore := 1,
      evalFeedback := "improve", evalTokens := 0 }
  else if n = 2 then
    { think := ThinkOutcome.ok "B" 0, evalScore := 3,
      evalFeedback := "good", evalTokens := 0 }
  else
    { think := ThinkOutcome.ok "C" 0, evalScore := 0,
      evalFeedback := "other", evalTokens := 0 }

/-- Environment where the only iteration generates a solution scoring
exactly 0. -/
def c2xevents : ℕ → IterEvent := fun _ =>
  { think := ThinkOutcome.ok "solA" 0, evalScore := 0,
    evalFeedback := "fb", evalTokens := 0 }

/-- Environment where iteration 1 evaluates to 0.0 and iteration 2 raises a
generation error. -/
def c6events : ℕ → IterEvent := fun n =>
  if n = 1 then
    { think := ThinkOutcome.ok "A" 0, evalScore := 0,
      evalFeedback := "fb", evalTokens := 0 }
  else
    { think := ThinkOutcome.err "boom", evalScore := 0,
      evalFeedback := "", evalTokens := 0 }

/-- Environment where every think step raises. -/
def c6wEvents : ℕ → IterEvent := fun _ =>
  { think := ThinkOutcome.err "x", evalScore := 0,
    evalFeedback := "", evalTokens := 0 }

/-- Environment with two iterations producing byte-identical solution
text. -/
def c3events : ℕ → IterEvent := fun _ =>
  { think := ThinkOutcome.ok "Same solution text" 2, evalScore := 1,
    evalFeedback := "fb", evalTokens := 3 }

/-- The invariant connecting the best-solution tracking of `solve_task` to
the evaluations made: initialized `(None, 0.0)` and updated only on a
strictly greater score, so a recorded best solution always stems from an
evaluated iteration whose score is the (positive) best score, and a
missing one means the best score is still 0. -/
def GoodAcc (events : ℕ → IterEvent) (acc : RunAcc) : Prop :=
  (∀ s, acc.best_solution = Option.some s →
    0 < acc.best_score ∧
    ∃ j ∈ acc.evalCalls, (events j).evalScore = acc.best_score ∧
      ∃ tok, (events j).think = ThinkOutcome.ok s tok) ∧
  (acc.best_solution = Option.none → acc.best_score = 0)

/-! ### MaTTS parallel search (`iterative_agent.py`, `solve_with_matts`) -/

/-- The `MaTTSSolutionCandidate` dataclass (`iterative_agent.py:63-70`). -/
structure MaTTSSolutionCandidate where
  solution : String
  score : ℚ
  feedback : String
  tokens_used : ℕ
  candidate_id : ℕ
  deriving Repr, DecidableEq

/-- Python's builtin `max(candidates, key=lambda c: c.score)`
(`iterative_agent.py:455`): scan left to right, replacing the running best
only on a strictly greater key — the first element of maximal score wins. -/
def pythonMaxByScore (candidates : List MaTTSSolutionCandidate) :
    Option MaTTSSolutionCandidate :=
  match candidates with
  | [] => Option.none
  | c :: cs => Option.some
      (cs.foldl (fun b x => if x.score > b.score then x else b) c)

/-- One candidate-generation attempt (`_generate_single_candidate`, or the
per-candidate try block of `_generate_sequential_solutions`): the generated
solution with its evaluation, or a swallowed exception. -/
inductive CandidateOutcome where
  | ok (solution : String) (score : ℚ) (feedback : String) (tokens : ℕ)
  | err (message : String)
  deriving Repr, DecidableEq

/-- Build the candidate record id `i` would produce, if its attempt
succeeded. -/
def candidateOf (outcomes : ℕ → CandidateOutcome) (i : ℕ) :
    Option MaTTSSolutionCandidate :=
  match outcomes i with
  | CandidateOutcome.ok solution score feedback tokens =>
      Option.some { solution := solution, score := score,
                    feedback := feedback, tokens_used := tokens,
                    candidate_id := i }
  | CandidateOutcome.err _ => Option.none

/-- `_generate_sequential_solutions` (`iterative_agent.py:719-799`):
candidate ids 1..k are attempted in order and failed attempts are skipped,
so the collected list is ordered by ascending candidate id. -/
def generate_sequential (k : ℕ) (outcomes : ℕ → CandidateOutcome) :
    List MaTTSSolutionCandidate :=
  (List.range' 1 k).filterMap (candidateOf outcomes)

/-- The thread-pool branch of `_generate_parallel_solutions`
(`iterative_agent.py:621-658`): results are appended in
`concurrent.futures.as_completed` order — the scheduler-dependent completion
order, an input of the embedding — and failed attempts are skipped. -/
def generate_parallel_pool (completion_order : List ℕ)
    (outcomes : ℕ → CandidateOutcome) : List MaTTSSolutionCandidate :=
  completion_order.filterMap (candidateOf outcomes)

/-- The optional refine pass of `solve_with_matts`: the think + evaluate
outcome, or a swallowed exception (`iterative_agent.py:477-524`). -/
inductive RefineOutcome where
  | ok (solution : String) (score : ℚ) (feedback : String) (tokens : ℕ)
  | err (message : String)
  deriving Repr, DecidableEq

/-- The final selection of `solve_with_matts`: the returned solution and
score. -/
structure MattsFinal where
  solution : String
  score : ℚ
  deriving Repr, DecidableEq

/-- The selection-and-refine stage of `solve_with_matts`
(`iterative_agent.py:441-525`): pick the maximum-score candidate with
Python's `max`; when `refine_best` is set and the selected score is below
the success threshold, run one additional think + evaluate pass and replace
the selection only if the refined score is strictly greater; a refine
exception keeps the original.  Returns `none` exactly when no candidate was
generated (the source then returns its failure result).  The prompt the
refine pass actually sends is modelled separately by `matts_refine_prompt`
below. -/
def matts_select_and_refine (success_threshold : ℚ) (refine_best : Bool)
    (candidates : List MaTTSSolutionCandidate) (refine : RefineOutcome) :
    Option MattsFinal :=
  match pythonMaxByScore candidates with
  | Option.none => Option.none
  | Option.some best =>
    if refine_best = true ∧ best.score < success_threshold then
      match refine with
      | RefineOutcome.ok refined_solution refined_score _ _ =>
        if refined_score > best.score then
          Option.some { solution := refined_solution, score := refined_score }
        else
          Option.some { solution := best.solution, score := best.score }
      | RefineOutcome.err _ =>
        Option.some { solution := best.solution, score := best.score }
    else
      Option.some { solution := best.solution, score := best.score }

/-- `_build_generation_prompt` (`iterative_agent.py:932-966`).  Memories are
taken as their already-formatted prompt blocks (`format_for_prompt`
output); `if memories:` is Python list truthiness. -/
def build_generation_prompt (task : String) (memories : List String) :
    String :=
  let memPart : List String :=
    if memories.isEmpty then []
    else
      ["# Relevant Past Experiences",
       "Here are relevant memories from past similar tasks. " ++
         "Learn from these patterns and avoid past mistakes:\n"] ++
      (((List.range (memories.take 3).length).zip (memories.take 3)).flatMap
        (fun p => ["## Memory " ++ toString (p.1 + 1), p.2, ""]))
  String.intercalate "\n"
    (["# Task", task, ""] ++ memPart ++
     ["# Instructions",
      "Generate a high-quality solution to the task above.",
      "If memories are provided, learn from the patterns and avoid past mistakes.",
      "Provide clear, well-structured code with explanations.",
      "",
      "# Solution"])

/-- `_build_refinement_prompt` (`iterative_agent.py:968-1006`): unlike the
generation prompt, it embeds the previous solution and the evaluation
feedback. -/
def build_refinement_prompt (task previous_solution feedback : String)
    (memories : List String) : String :=
  let memPart : List String :=
    if memories.isEmpty then []
    else
      ["# Relevant Past Experiences"] ++
      (((List.range (memories.take 2).length).zip (memories.take 2)).flatMap
        (fun p => ["## Memory " ++ toString (p.1 + 1), p.2, ""]))
  String.intercalate "\n"
    (["# Task", task, "",
      "# Previous Solution Attempt", previous_solution, "",
      "# Evaluation Feedback", feedback, ""] ++ memPart ++
     ["# Instructions",
      "Refine the previous solution based on the evaluation feedback.",
      "Address the specific issues mentioned in the feedback.",
      "Maintain what was working well in the previous attempt.",
      "Provide an improved, complete solution.",
      "",
      "# Refined Solution"])

/-- The prompt dispatch at the top of `_think_step`
(`iterative_agent.py:829-837`): `iteration == 1` builds the generation
prompt — `previous_solution` and `feedback` are not consulted — and any
other iteration builds the refinement prompt from them.  (In the source the
two are `Optional[str]`; every call that reaches the refinement branch
passes actual strings.) -/
def think_step_prompt (task : String) (memories : List String)
    (iteration : ℕ) (previous_solution feedback : String) : String :=
  if iteration = 1 then build_generation_prompt task memories
  else build_refinement_prompt task previous_solution feedback memories

/-- The prompt the refine pass of `solve_with_matts` sends: the source
calls `_think_step(task, memories, iteration=1,
previous_solution=best_candidate.solution,
feedback=best_candidate.feedback)` (`iterative_agent.py:478-484`). -/
def matts_refine_prompt (task : String) (memories : List String)
    (best : MaTTSSolutionCandidate) : String :=
  think_step_prompt task memories 1 best.solution best.feedback

/-- Two tied candidate outcomes (ids 1 and 2, both scoring 2). -/
def tieOutcomes : ℕ → CandidateOutcome := fun i =>
  if i = 1 then CandidateOutcome.ok "A" 2 "fbA" 10
  else CandidateOutcome.ok "B" 2 "fbB" 10

end Mattthinking

namespace Mattthinking

/-! ### Theorems: scoring -/

/-- Helper: the underscore filter drops exactly the retrieval metadata, so the
row returned by `query_similar_memories` is the stored payload with the
computed similarity and timestamp discarded. -/
theorem query_similar_row_eq (payload : MemoryItemSchema) (distance : ℚ)
    (outcome timestamp : Option String) :
    query_similar_row payload distance outcome timestamp =
      Option.some payload := by
  rfl

/-- C1: the claim says the composite score of every record scored during
retrieval uses the similarity the MemoryStore returned for it (defaulting to
0.5 only if absent).  The code computes that similarity
(`1.0 / (1.0 + distance)`, `storage_adapter.py:457`) but then drops it — the
underscore-keyed retrieval metadata is filtered out before the schema is
rebuilt (`storage_adapter.py:469`) and `MemoryItem.from_schema` leaves
`similarity_score` and `trace_timestamp` at `None` — so every retrieved
record is scored with the 0.5 defaults for both similarity and recency, for
any backend distance.  At distance 0 (backend similarity 1.0), default
weights and no error context, the code yields 9/20 = 0.45 while the claimed
formula yields 3/4 = 0.75. -/
theorem retrieval_similarity_discarded :
    (∀ (wS wR wE : ℚ) (recencyOf : String → Option ℚ)
       (payload : MemoryItemSchema) (distance : ℚ)
       (outcome timestamp : Option String),
       retrieve_score wS wR wE recencyOf payload distance outcome timestamp =
         Option.some (clamp01 (wS * (1/2) + wR * (1/2) +
           wE * (if ctxTruthy payload.error_context then 1 else 0)))) ∧
    retrieve_score (3/5) (3/10) (1/10) (fun _ => Option.none) samplePayload 0
        Option.none Option.none = Option.some (9/20) ∧
    spec_composite (3/5) (3/10) (1/10) (1 / (1 + 0)) (1/2) false = 3/4 ∧
    (9/20 : ℚ) ≠ 3/4 := by
  refine ⟨?_, ?_, ?_, by norm_num⟩
  · intro wS wR wE recencyOf payload distance outcome timestamp
    simp [retrieve_score, query_similar_row_eq, compute_composite_score,
      MemoryItem.from_schema, pyFloatOr]
  · simp [retrieve_score, query_similar_row_eq, compute_composite_score,
      MemoryItem.from_schema, pyFloatOr, samplePayload, ctxTruthy, clamp01]
    norm_num
  · simp [spec_composite, clamp01]
    norm_num

/-- C9 counterexample: the weight triple (0.6, 0.3, 0.105) sums to 1.005,
which is not 1.0, yet `math.isclose(total, 1.0, rel_tol=0.01)` holds, so
`ReasoningBank.__init__` stores the weights unchanged and the stored weights
do not sum to 1 — contradicting the claim that every triple not summing to
1.0 is renormalized to sum 1. -/
theorem weights_tolerance_counterexample :
    ((3:ℚ)/5 + 3/10 + 21/200 ≠ 1) ∧
    reasoning_bank_weights (3/5) (3/10) (21/200) = (3/5, 3/10, 21/200) := by
  have h : isclose ((3:ℚ)/5 + 3/10 + 21/200) 1 (1/100) = true := by
    have habs : |(3:ℚ)/5 + 3/10 + 21/200 - 1| = 1/200 := by
      rw [abs_of_nonneg (by norm_num : (0:ℚ) ≤ 3/5 + 3/10 + 21/200 - 1)]
      norm_num
    have hmax : max |(3:ℚ)/5 + 3/10 + 21/200| |(1:ℚ)| = 201/200 := by
      rw [abs_of_nonneg (by norm_num : (0:ℚ) ≤ 3/5 + 3/10 + 21/200), abs_one]
      rw [max_eq_left (by norm_num : (1:ℚ) ≤ 3/5 + 3/10 + 21/200)]
      norm_num
    simp only [isclose, habs, hmax, decide_eq_true_eq]
    norm_num
  constructor
  · norm_num
  · simp only [reasoning_bank_weights]
    rw [if_pos h]

/-- C9 amended: `ReasoningBank.__init__` renormalizes the weights (each
divided by their total) exactly when the total fails
`math.isclose(total, 1.0, rel_tol=0.01)`; a total within that 1 percent
relative tolerance — not only one equal to 1.0 — is stored unchanged.  When
renormalization does occur (and the total is nonzero, otherwise the Python
division raises), the stored weights sum to exactly 1. -/
theorem weights_normalization_amended (ws wr we : ℚ) :
    (isclose (ws + wr + we) 1 (1/100) = true →
      reasoning_bank_weights ws wr we = (ws, wr, we)) ∧
    (isclose (ws + wr + we) 1 (1/100) = false → ws + wr + we ≠ 0 →
      reasoning_bank_weights ws wr we =
        (ws / (ws + wr + we), wr / (ws + wr + we), we / (ws + wr + we)) ∧
      ws / (ws + wr + we) + wr / (ws + wr + we) + we / (ws + wr + we) = 1) := by
  constructor
  · intro h
    simp only [reasoning_bank_weights]
    rw [if_pos h]
  · intro h hne
    constructor
    · simp only [reasoning_bank_weights]
      rw [if_neg (by rw [h]; simp)]
    · field_simp

/-- Witness for `weights_normalization_amended` at the triple (1, 1, 1):
the total 3 is not within tolerance of 1, so the stored weights are
(1/3, 1/3, 1/3), which sum to 1. -/
theorem weights_normalization_amended_witness :
    reasoning_bank_weights 1 1 1 = ((1:ℚ)/3, (1:ℚ)/3, (1:ℚ)/3) ∧
    (1:ℚ)/3 + 1/3 + 1/3 = 1 := by
  have hfar : isclose ((1:ℚ) + 1 + 1) 1 (1/100) = false := by
    have habs : |(1:ℚ) + 1 + 1 - 1| = 2 := by
      rw [abs_of_nonneg (by norm_num : (0:ℚ) ≤ 1 + 1 + 1 - 1)]; norm_num
    have hmax : max |(1:ℚ) + 1 + 1| |(1:ℚ)| = 3 := by
      rw [abs_of_nonneg (by norm_num : (0:ℚ) ≤ 1 + 1 + 1), abs_one]
      rw [max_eq_left (by norm_num : (1:ℚ) ≤ 1 + 1 + 1)]
      norm_num
    simp only [isclose, habs, hmax, decide_eq_false_iff_not]
    norm_num
  have h := (weights_normalization_amended (1:ℚ) 1 1).2 hfar (by norm_num)
  constructor
  · rw [h.1]; norm_num
  · norm_num

/-! ### Theorems: cached LLM client -/

/-- C10: with `enable_cache = False` every `create` call — whatever its
temperature, including exactly 0.0 — takes the bypass branch
(`cached_llm_client.py:234-246`): the underlying client is invoked once, the
result is passed through, only the `bypassed` counter changes, and the stored
cache entries are untouched. -/
theorem create_disabled_bypasses {K V : Type} [DecidableEq K]
    (cfg : CacheConfig) (s : CacheState K V) (temperature : ℚ) (key : K)
    (now : ℚ) (api_result : V) (h : cfg.enable_cache = false) :
    create cfg s temperature key now api_result =
      { result := api_result,
        state := { s with cache_bypassed := s.cache_bypassed + 1 },
        api_calls := 1 } ∧
    (create cfg s temperature key now api_result).state.cache = s.cache ∧
    (create cfg s temperature key now api_result).state.cache_hits =
      s.cache_hits ∧
    (create cfg s temperature key now api_result).state.cache_misses =
      s.cache_misses ∧
    (create cfg s temperature key now api_result).api_calls = 1 := by
  have hcond : ¬ cfg.enable_cache = true ∨ temperature ≠ 0 :=
    Or.inl (by rw [h]; simp)
  have h1 : create cfg s temperature key now api_result =
      { result := api_result,
        state := { s with cache_bypassed := s.cache_bypassed + 1 },
        api_calls := 1 } := by
    unfold create
    rw [if_pos hcond]
  exact ⟨h1, by rw [h1], by rw [h1], by rw [h1], by rw [h1]⟩

/-- Witness for `create_disabled_bypasses`: with caching disabled and
temperature exactly 0, a call on the fresh state returns the generator
result, counts one bypass, and stores nothing. -/
theorem create_disabled_bypasses_witness :
    create { max_cache_size := 2, ttl_seconds := 10, enable_cache := false }
        (initialCacheState ℕ ℕ) 0 1 0 42 =
      { result := 42,
        state := { cache := [], cache_hits := 0, cache_misses := 0,
                   cache_bypassed := 1 },
        api_calls := 1 } :=
  (create_disabled_bypasses
    { max_cache_size := 2, ttl_seconds := 10, enable_cache := false }
    (initialCacheState ℕ ℕ) 0 1 0 42 rfl).1

/-- C8: on a cacheable request (caching enabled, temperature 0) whose key is
stored with timestamp `ts`: if the entry is still valid (`age < ttl`) the
stored result is returned with no generator call, the hit counter is bumped
and the entry is moved to the most-recently-used end with its value and
timestamp unchanged; if the entry has expired the old entry is deleted, the
call proceeds as a miss: the miss counter is bumped and exactly one generator
call is made, whose fresh result is returned
(`cached_llm_client.py:259-301`). -/
theorem create_ttl_hit_and_expiry {K V : Type} [DecidableEq K]
    (cfg : CacheConfig) (s : CacheState K V) (key : K) (v : V) (ts now : ℚ)
    (api_result : V) (henable : cfg.enable_cache = true)
    (hfind : s.cache.find? (fun e => decide (e.1 = key)) =
      Option.some (key, v, ts)) :
    (is_cache_valid cfg now ts = true →
      create cfg s 0 key now api_result =
        { result := v,
          state :=
            { s with
              cache := cacheDelete s.cache key ++ [(key, v, ts)],
              cache_hits := s.cache_hits + 1 },
          api_calls := 0 }) ∧
    (is_cache_valid cfg now ts = false →
      create cfg s 0 key now api_result =
        create_miss cfg { s with cache := cacheDelete s.cache key } key now
          api_result ∧
      (create cfg s 0 key now api_result).api_calls = 1 ∧
      (create cfg s 0 key now api_result).state.cache_misses =
        s.cache_misses + 1 ∧
      (create cfg s 0 key now api_result).state.cache_hits = s.cache_hits ∧
      (create cfg s 0 key now api_result).result = api_result) := by
  have hcond : ¬ (¬ cfg.enable_cache = true ∨ (0:ℚ) ≠ 0) := by
    rw [henable]; simp
  constructor
  · intro hvalid
    unfold create
    rw [if_neg hcond, hfind]
    simp only [hvalid, if_true]
    unfold move_to_end
    rw [hfind]
  · intro hexp
    have h1 : create cfg s 0 key now api_result =
        create_miss cfg { s with cache := cacheDelete s.cache key } key now
          api_result := by
      unfold create
      rw [if_neg hcond, hfind]
      simp only [hexp]
      simp
    refine ⟨h1, ?_, ?_, ?_, ?_⟩ <;> rw [h1] <;> simp [create_miss]

/-- Witness for `create_ttl_hit_and_expiry`: a capacity-2 cache holding key 1
(value 99, stored at time 0) with a 10-second TTL.  At time 5 the entry is
still valid: the call is a hit, returns 99, makes no generator call.  At
time 10 the entry has expired: the call is a miss and makes one generator
call. -/
theorem create_ttl_hit_and_expiry_witness :
    create { max_cache_size := 2, ttl_seconds := 10, enable_cache := true }
        ({ cache := [(1, 99, 0)], cache_hits := 0, cache_misses := 0,
           cache_bypassed := 0 } : CacheState ℕ ℕ) 0 1 5 7 =
      { result := 99,
        state := { cache := [(1, 99, 0)], cache_hits := 1, cache_misses := 0,
                   cache_bypassed := 0 },
        api_calls := 0 } ∧
    (create { max_cache_size := 2, ttl_seconds := 10, enable_cache := true }
        ({ cache := [(1, 99, 0)], cache_hits := 0, cache_misses := 0,
           cache_bypassed := 0 } : CacheState ℕ ℕ) 0 1 10 7).api_calls = 1 := by
  have h := create_ttl_hit_and_expiry
    { max_cache_size := 2, ttl_seconds := 10, enable_cache := true }
    ({ cache := [(1, 99, 0)], cache_hits := 0, cache_misses := 0,
       cache_bypassed := 0 } : CacheState ℕ ℕ) 1 99 0 5 7 rfl rfl
  have h2 := create_ttl_hit_and_expiry
    { max_cache_size := 2, ttl_seconds := 10, enable_cache := true }
    ({ cache := [(1, 99, 0)], cache_hits := 0, cache_misses := 0,
       cache_bypassed := 0 } : CacheState ℕ ℕ) 1 99 0 10 7 rfl rfl
  constructor
  · have hv : is_cache_valid
        { max_cache_size := 2, ttl_seconds := 10, enable_cache := true }
        5 0 = true := by norm_num [is_cache_valid]
    rw [h.1 hv]
    rfl
  · have hx : is_cache_valid
        { max_cache_size := 2, ttl_seconds := 10, enable_cache := true }
        10 0 = false := by norm_num [is_cache_valid]
    exact (h2.2 hx).2.1

/-- Helper: `popitem(last=False)` is exactly dropping the head. -/
theorem evict_oldest_eq_tail {K V : Type} (c : List (K × V × ℚ)) :
    evict_oldest c = c.tail := by
  cases c <;> rfl

/-- Helper: a dict store grows the entry list by at most one. -/
theorem cacheInsert_length_le {K V : Type} [DecidableEq K]
    (c : List (K × V × ℚ)) (k : K) (v : V) (t : ℚ) :
    (cacheInsert c k v t).length ≤ c.length + 1 := by
  unfold cacheInsert
  split
  · simp
  · simp

/-- Helper: deleting a key never grows the entry list. -/
theorem cacheDelete_length_le {K V : Type} [DecidableEq K]
    (c : List (K × V × ℚ)) (k : K) :
    (cacheDelete c k).length ≤ c.length :=
  (List.eraseP_sublist c).length_le

/-- Helper: moving an entry to the most-recent end preserves the length. -/
theorem move_to_end_length {K V : Type} [DecidableEq K]
    (c : List (K × V × ℚ)) (k : K) :
    (move_to_end c k).length = c.length := by
  unfold move_to_end
  cases hf : c.find? (fun e => decide (e.1 = k)) with
  | none => rfl
  | some e =>
    have hmem := List.mem_of_find?_eq_some hf
    have hp := List.find?_some hf
    have hpos : 1 ≤ c.length := List.length_pos.mpr (List.ne_nil_of_mem hmem)
    simp only [cacheDelete, List.length_append, List.length_singleton]
    rw [List.length_eraseP_of_mem hmem hp]
    omega

/-- Helper: the miss path respects the capacity bound. -/
theorem create_miss_length_le {K V : Type} [DecidableEq K]
    (cfg : CacheConfig) (s : CacheState K V) (key : K) (now : ℚ)
    (api_result : V) (h : s.cache.length ≤ cfg.max_cache_size) :
    (create_miss cfg s key now api_result).state.cache.length ≤
      cfg.max_cache_size := by
  dsimp only [create_miss]
  have hins := cacheInsert_length_le s.cache key api_result now
  have hcore :
      (if (cacheInsert s.cache key api_result now).length >
            cfg.max_cache_size then
          evict_oldest (cacheInsert s.cache key api_result now)
        else cacheInsert s.cache key api_result now).length ≤
        cfg.max_cache_size := by
    split
    · rw [evict_oldest_eq_tail, List.length_tail]
      omega
    · omega
  split
  · exact le_trans (List.length_filter_le _ _) hcore
  · exact hcore

/-- Helper: every completed `create` call respects the capacity bound. -/
theorem create_length_le {K V : Type} [DecidableEq K]
    (cfg : CacheConfig) (s : CacheState K V) (temperature : ℚ) (key : K)
    (now : ℚ) (api_result : V) (h : s.cache.length ≤ cfg.max_cache_size) :
    (create cfg s temperature key now api_result).state.cache.length ≤
      cfg.max_cache_size := by
  unfold create
  split
  · exact h
  · split
    · split
      · simpa [move_to_end_length] using h
      · exact create_miss_length_le _ _ _ _ _
          (le_trans (cacheDelete_length_le s.cache key) h)
    · exact create_miss_length_le _ _ _ _ _ h

/-- Helper: a run of fresh-key deterministic requests that fits within the
capacity and happens before any entry can expire appends its entries in
order, counting one miss each (any every-10th-miss sweep fires on valid
entries only and removes nothing). -/
theorem run_creates_fresh_fill {K V : Type} [DecidableEq K]
    (cfg : CacheConfig) (henable : cfg.enable_cache = true)
    (ops : List (K × ℚ × V)) :
    ∀ s : CacheState K V,
    (∀ op ∈ ops, ∀ e ∈ s.cache, e.1 ≠ op.1) →
    (ops.map (fun op => op.1)).Nodup →
    s.cache.length + ops.length ≤ cfg.max_cache_size →
    (∀ op ∈ ops, ∀ e ∈ s.cache, op.2.1 - e.2.2 < cfg.ttl_seconds) →
    (∀ op ∈ ops, ∀ op2 ∈ ops, op.2.1 - op2.2.1 < cfg.ttl_seconds) →
    run_creates cfg s ops =
      { cache := s.cache ++ ops.map entryOf,
        cache_hits := s.cache_hits,
        cache_misses := s.cache_misses + ops.length,
        cache_bypassed := s.cache_bypassed } := by
  induction ops with
  | nil =>
    intro s _ _ _ _ _
    cases s
    simp [run_creates]
  | cons op rest ih =>
    intro s hfresh hnodup hlen hvOld hvOps
    have hcond : ¬ (¬ cfg.enable_cache = true ∨ (0:ℚ) ≠ 0) := by
      rw [henable]; simp
    have hfind : s.cache.find? (fun e => decide (e.1 = op.1)) =
        Option.none := by
      rw [List.find?_eq_none]
      intro e he
      simpa using hfresh op (List.mem_cons_self op rest) e he
    have hmiss : create cfg s 0 op.1 op.2.1 op.2.2 =
        create_miss cfg s op.1 op.2.1 op.2.2 := by
      unfold create
      rw [if_neg hcond, hfind]
    have hins : cacheInsert s.cache op.1 op.2.2 op.2.1 =
        s.cache ++ [entryOf op] := by
      unfold cacheInsert
      rw [if_neg (by rw [hfind]; simp)]
      rfl
    have hnoev : ¬ (s.cache ++ [entryOf op]).length > cfg.max_cache_size := by
      simp only [List.length_cons] at hlen
      simp only [List.length_append, List.length_singleton]
      omega
    have hsweep : evict_expired cfg op.2.1 (s.cache ++ [entryOf op]) =
        s.cache ++ [entryOf op] := by
      unfold evict_expired
      rw [List.filter_eq_self]
      intro e he
      rcases List.mem_append.mp he with h1 | h2
      · simpa [is_cache_valid] using
          hvOld op (List.mem_cons_self op rest) e h1
      · have heq : e = entryOf op := by simpa using h2
        subst heq
        simpa [is_cache_valid, entryOf] using
          hvOps op (List.mem_cons_self op rest) op (List.mem_cons_self op rest)
    have hstep : (create cfg s 0 op.1 op.2.1 op.2.2).state =
        { cache := s.cache ++ [entryOf op],
          cache_hits := s.cache_hits,
          cache_misses := s.cache_misses + 1,
          cache_bypassed := s.cache_bypassed } := by
      rw [hmiss]
      dsimp only [create_miss]
      rw [hins, if_neg hnoev]
      split
      · rw [hsweep]
      · rfl
    have hfresh2 : ∀ op2 ∈ rest, ∀ e ∈ s.cache ++ [entryOf op],
        e.1 ≠ op2.1 := by
      intro op2 hop2 e he
      rcases List.mem_append.mp he with h1 | h2
      · exact hfresh op2 (List.mem_cons_of_mem _ hop2) e h1
      · have heq : e = entryOf op := by simpa using h2
        subst heq
        have hni : op.1 ∉ rest.map (fun o => o.1) := by
          simp only [List.map_cons, List.nodup_cons] at hnodup
          exact hnodup.1
        intro hcontra
        exact hni (hcontra ▸ List.mem_map_of_mem _ hop2)
    have hnodup2 : (rest.map (fun o => o.1)).Nodup := by
      simp only [List.map_cons, List.nodup_cons] at hnodup
      exact hnodup.2
    have hlen2 : (s.cache ++ [entryOf op]).length + rest.length ≤
        cfg.max_cache_size := by
      simp only [List.length_cons] at hlen
      simp only [List.length_append, List.length_singleton]
      omega
    have hvOld2 : ∀ op2 ∈ rest, ∀ e ∈ s.cache ++ [entryOf op],
        op2.2.1 - e.2.2 < cfg.ttl_seconds := by
      intro op2 hop2 e he
      rcases List.mem_append.mp he with h1 | h2
      · exact hvOld op2 (List.mem_cons_of_mem _ hop2) e h1
      · have heq : e = entryOf op := by simpa using h2
        subst heq
        exact hvOps op2 (List.mem_cons_of_mem _ hop2) op
          (List.mem_cons_self op rest)
    have hvOps2 : ∀ op2 ∈ rest, ∀ op3 ∈ rest,
        op2.2.1 - op3.2.1 < cfg.ttl_seconds := fun op2 h2 op3 h3 =>
      hvOps op2 (List.mem_cons_of_mem _ h2) op3 (List.mem_cons_of_mem _ h3)
    have hfold : run_creates cfg s (op :: rest) =
        run_creates cfg ((create cfg s 0 op.1 op.2.1 op.2.2).state) rest :=
      rfl
    rw [hfold, hstep, ih _ hfresh2 hnodup2 hlen2 hvOld2 hvOps2]
    simp only [CacheState.mk.injEq, List.map_cons, List.length_cons]
    refine ⟨?_, trivial, by omega, trivial⟩
    rw [List.append_assoc]
    rfl

/-- Helper: a fresh-key deterministic request against a cache already at
capacity stores the new entry and evicts the head (the oldest entry); a
sweep, if it fires, removes nothing as long as every remaining entry is
still valid at the request time. -/
theorem create_fresh_at_capacity {K V : Type} [DecidableEq K]
    (cfg : CacheConfig) (s : CacheState K V) (key : K) (now : ℚ)
    (api_result : V) (henable : cfg.enable_cache = true)
    (hfind : s.cache.find? (fun e => decide (e.1 = key)) = Option.none)
    (hlen : s.cache.length = cfg.max_cache_size)
    (hvAll : ∀ e ∈ s.cache ++ [(key, api_result, now)],
      now - e.2.2 < cfg.ttl_seconds) :
    (create cfg s 0 key now api_result).state.cache =
      (s.cache ++ [(key, api_result, now)]).tail := by
  have hcond : ¬ (¬ cfg.enable_cache = true ∨ (0:ℚ) ≠ 0) := by
    rw [henable]; simp
  have hmiss : create cfg s 0 key now api_result =
      create_miss cfg s key now api_result := by
    unfold create
    rw [if_neg hcond, hfind]
  have hins : cacheInsert s.cache key api_result now =
      s.cache ++ [(key, api_result, now)] := by
    unfold cacheInsert
    rw [if_neg (by rw [hfind]; simp)]
  have hov : (s.cache ++ [(key, api_result, now)]).length >
      cfg.max_cache_size := by
    simp only [List.length_append, List.length_singleton]
    omega
  have hsweep :
      evict_expired cfg now ((s.cache ++ [(key, api_result, now)]).tail) =
        (s.cache ++ [(key, api_result, now)]).tail := by
    unfold evict_expired
    rw [List.filter_eq_self]
    intro e he
    have hmem : e ∈ s.cache ++ [(key, api_result, now)] :=
      List.mem_of_mem_tail he
    simpa [is_cache_valid] using hvAll e hmem
  rw [hmiss]
  dsimp only [create_miss]
  rw [hins, if_pos hov, evict_oldest_eq_tail]
  split
  · rw [hsweep]
  · rfl

/-- C7 amended: the size bound is an unconditional invariant — a completed
`create` call never leaves more than `max_cache_size` entries (given it
started within the bound) — and the eviction scenario holds with a
freshness proviso: inserting capacity + 1 distinct keys with no re-access,
all mutually within the TTL window (so no entry expires during the run),
evicts exactly the first-inserted key and leaves every other inserted key
cached, in insertion order.  Without the proviso the every-10th-miss
expiry sweep can evict additional keys (see the counterexample). -/
theorem cache_capacity_and_eviction_amended {K V : Type} [DecidableEq K] :
    (∀ (cfg : CacheConfig) (s : CacheState K V) (temperature : ℚ) (key : K)
       (now : ℚ) (api_result : V),
       s.cache.length ≤ cfg.max_cache_size →
       (create cfg s temperature key now api_result).state.cache.length ≤
         cfg.max_cache_size) ∧
    (∀ (cfg : CacheConfig) (ops : List (K × ℚ × V)),
       cfg.enable_cache = true →
       (ops.map (fun op => op.1)).Nodup →
       ops.length = cfg.max_cache_size + 1 →
       (∀ op ∈ ops, ∀ op2 ∈ ops, op.2.1 - op2.2.1 < cfg.ttl_seconds) →
       (run_creates cfg (initialCacheState K V) ops).cache =
         (ops.map entryOf).tail) := by
  constructor
  · exact fun cfg s t k now v h => create_length_le cfg s t k now v h
  · intro cfg ops henable hnodup hlenEq hvOps
    rcases List.eq_nil_or_concat ops with hnil | ⟨init, lst, hsplit⟩
    · subst hnil
      simp at hlenEq
    subst hsplit
    rw [List.concat_eq_append] at hnodup hlenEq hvOps ⊢
    have hmapn : ((init.map (fun op => op.1)) ++ [lst.1]).Nodup := by
      simpa using hnodup
    have hinitNodup : (init.map (fun op => op.1)).Nodup :=
      (List.nodup_append.mp hmapn).1
    have hdisj : (init.map (fun op => op.1)).Disjoint [lst.1] :=
      (List.nodup_append.mp hmapn).2.2
    have hinitLen : init.length = cfg.max_cache_size := by
      simp only [List.length_append, List.length_singleton] at hlenEq
      omega
    have hfill := run_creates_fresh_fill cfg henable init
      (initialCacheState K V)
      (by intro op hop e he; simp [initialCacheState] at he)
      hinitNodup
      (by simp [initialCacheState]; omega)
      (by intro op hop e he; simp [initialCacheState] at he)
      (fun op h1 op2 h2 =>
        hvOps op (List.mem_append_left _ h1) op2 (List.mem_append_left _ h2))
    have hsplitRun :
        run_creates cfg (initialCacheState K V) (init ++ [lst]) =
          (create cfg (run_creates cfg (initialCacheState K V) init) 0
            lst.1 lst.2.1 lst.2.2).state := by
      unfold run_creates
      rw [List.foldl_append]
      rfl
    rw [hsplitRun, hfill]
    have hfind :
        (((initialCacheState K V).cache ++ init.map entryOf).find?
          (fun e => decide (e.1 = lst.1))) = Option.none := by
      rw [List.find?_eq_none]
      intro e he
      simp only [initialCacheState, List.nil_append] at he
      rcases List.mem_map.mp he with ⟨op2, hop2, rfl⟩
      simp only [entryOf, decide_eq_true_eq]
      intro hcontra
      exact hdisj (List.mem_map_of_mem _ hop2) (by simp [hcontra])
    have hvAll : ∀ e ∈ ((initialCacheState K V).cache ++ init.map entryOf) ++
        [(lst.1, lst.2.2, lst.2.1)],
        lst.2.1 - e.2.2 < cfg.ttl_seconds := by
      intro e he
      simp only [initialCacheState, List.nil_append] at he
      rcases List.mem_append.mp he with h1 | h2
      · rcases List.mem_map.mp h1 with ⟨op2, hop2, rfl⟩
        exact hvOps lst (List.mem_append_right _ (by simp)) op2
          (List.mem_append_left _ hop2)
      · have heq : e = (lst.1, lst.2.2, lst.2.1) := by simpa using h2
        subst heq
        exact hvOps lst (List.mem_append_right _ (by simp)) lst
          (List.mem_append_right _ (by simp))
    have hstep := create_fresh_at_capacity cfg
      { cache := (initialCacheState K V).cache ++ init.map entryOf,
        cache_hits := (initialCacheState K V).cache_hits,
        cache_misses := (initialCacheState K V).cache_misses + init.length,
        cache_bypassed := (initialCacheState K V).cache_bypassed }
      lst.1 lst.2.1 lst.2.2 henable hfind
      (by simp [initialCacheState, hinitLen]) hvAll
    rw [hstep]
    simp [initialCacheState, entryOf]

/-- C7 counterexample: capacity 10, ttl 5 seconds, eleven distinct keys
1..11 inserted at times 0..10 with no re-access.  The claim says exactly the
first-inserted key (1) is evicted and keys 2..11 remain cached.  In fact the
10th miss triggers the expiry sweep, which also removes keys 1..5 (their
entries are older than the TTL), so afterwards only keys 6..11 are cached:
key 2, although inserted and never evicted by the LRU rule, is gone. -/
theorem cache_eviction_counterexample :
    sweepOps.length = sweepCfg.max_cache_size + 1 ∧
    (sweepOps.map (fun op => op.1)) = [1, 2, 3, 4, 5, 6, 7, 8, 9, 10, 11] ∧
    (sweepOps.map (fun op => op.1)).Nodup ∧
    ((run_creates sweepCfg (initialCacheState ℕ ℕ) sweepOps).cache.map
      (fun e => e.1)) = [6, 7, 8, 9, 10, 11] ∧
    ¬ (2 : ℕ) ∈ ((run_creates sweepCfg (initialCacheState ℕ ℕ)
      sweepOps).cache.map (fun e => e.1)) := by
  have hrun : ((run_creates sweepCfg (initialCacheState ℕ ℕ)
      sweepOps).cache.map (fun e => e.1)) = [6, 7, 8, 9, 10, 11] := by
    norm_num [run_creates, sweepOps, sweepCfg, initialCacheState, create,
      create_miss, cacheInsert, cacheDelete, move_to_end, evict_oldest,
      evict_expired, is_cache_valid, List.eraseP, List.find?, List.filter]
  refine ⟨rfl, rfl, by decide, hrun, ?_⟩
  rw [hrun]
  decide

/-- Witness for `cache_capacity_and_eviction_amended`: capacity 2, TTL 100,
three fresh keys inserted at times 0, 1, 2 (all within the TTL window).  The
run keeps exactly the entries of keys 2 and 3 in order, and a single
insertion into the empty cache respects the capacity bound. -/
theorem cache_capacity_and_eviction_amended_witness :
    (run_creates fillCfg (initialCacheState ℕ ℕ) fillOps).cache =
      [(2, 20, 1), (3, 30, 2)] ∧
    (create fillCfg (initialCacheState ℕ ℕ) 0 1 0 10).state.cache.length ≤
      fillCfg.max_cache_size := by
  have hvOps : ∀ op ∈ fillOps, ∀ op2 ∈ fillOps,
      op.2.1 - op2.2.1 < fillCfg.ttl_seconds := by
    intro op hop op2 hop2
    fin_cases hop <;> fin_cases hop2 <;> norm_num [fillCfg]
  have h := (cache_capacity_and_eviction_amended (K := ℕ) (V := ℕ)).2
    fillCfg fillOps rfl (by decide) rfl hvOps
  refine ⟨?_, ?_⟩
  · rw [h]
    rfl
  · exact (cache_capacity_and_eviction_amended (K := ℕ) (V := ℕ)).1
      fillCfg (initialCacheState ℕ ℕ) 0 1 0 10 (by decide)

/-! ### Theorems: iterative reasoning loop -/

/-- Helper: a completed iteration appends exactly one evaluate invocation. -/
theorem thinkEvalAcc_evalCalls (hash : String → String)
    (events : ℕ → IterEvent) (i : ℕ) (solution : String) (acc1 : RunAcc) :
    (thinkEvalAcc hash events i solution acc1).evalCalls =
      acc1.evalCalls ++ [i] := by
  unfold thinkEvalAcc
  dsimp only
  split <;> rfl

/-- Helper: a completed iteration appends exactly a think entry and an
evaluate entry to the trajectory. -/
theorem thinkEvalAcc_trajectory (hash : String → String)
    (events : ℕ → IterEvent) (i : ℕ) (solution : String) (acc1 : RunAcc) :
    (thinkEvalAcc hash events i solution acc1).trajectory =
      acc1.trajectory ++
        [{ iteration := i, action := TrajAction.think, output := solution },
         { iteration := i, action := TrajAction.evaluate,
           output := (events i).evalFeedback }] := by
  unfold thinkEvalAcc
  dsimp only
  split <;> simp

/-- Helper: the best score never decreases over a completed iteration. -/
theorem thinkEvalAcc_best_mono (hash : String → String)
    (events : ℕ → IterEvent) (i : ℕ) (solution : String) (acc1 : RunAcc) :
    acc1.best_score ≤ (thinkEvalAcc hash events i solution acc1).best_score := by
  unfold thinkEvalAcc
  dsimp only
  split
  · exact le_of_lt (by assumption)
  · exact le_refl _

/-- Helper: the iteration's own score is bounded by the updated best score. -/
theorem thinkEvalAcc_score_le (hash : String → String)
    (events : ℕ → IterEvent) (i : ℕ) (solution : String) (acc1 : RunAcc) :
    (events i).evalScore ≤
      (thinkEvalAcc hash events i solution acc1).best_score := by
  unfold thinkEvalAcc
  dsimp only
  split
  · exact le_refl _
  · exact le_of_not_lt (by assumption)

/-- Helper: the best-tracking invariant survives a completed iteration. -/
theorem thinkEvalAcc_good (hash : String → String) (events : ℕ → IterEvent)
    (i : ℕ) (solution : String) (tokens : ℕ) (acc1 : RunAcc)
    (hthink : (events i).think = ThinkOutcome.ok solution tokens)
    (hgood : GoodAcc events acc1) :
    GoodAcc events (thinkEvalAcc hash events i solution acc1) := by
  unfold thinkEvalAcc
  dsimp only
  split
  · rename_i hgt
    constructor
    · intro s hs
      simp only [Option.some.injEq] at hs
      subst hs
      constructor
      · have h0 : 0 ≤ acc1.best_score := by
          rcases h : acc1.best_solution with _ | s2
          · exact le_of_eq (hgood.2 h).symm
          · exact le_of_lt (hgood.1 s2 h).1
        exact lt_of_le_of_lt h0 hgt
      · exact ⟨i, by simp, rfl, tokens, hthink⟩
    · intro hnone
      simp at hnone
  · constructor
    · intro s hs
      rcases hgood.1 s hs with ⟨hpos, j, hj, hsc, tok, hok⟩
      exact ⟨hpos, j, List.mem_append_left _ hj, hsc, tok, hok⟩
    · intro hnone
      exact hgood.2 hnone

/-- Helper: the loop only ever appends to the evaluate-invocation log, and
every new invocation happens at an iteration index at least `i`. -/
theorem runIters_evalCalls_extend (hash : String → String) (th : ℚ)
    (events : ℕ → IterEvent) :
    ∀ (remaining i : ℕ) (acc : RunAcc),
    ∃ L, (runIters hash th events remaining i acc).acc.evalCalls =
      acc.evalCalls ++ L ∧ ∀ j ∈ L, i ≤ j := by
  intro remaining
  induction remaining with
  | zero =>
    intro i acc
    exact ⟨[], by simp [runIters], by simp⟩
  | succ n ih =>
    intro i acc
    cases hthink : (events i).think with
    | err msg =>
      refine ⟨[], ?_, by simp⟩
      simp [runIters, hthink, errAcc]
    | ok solution tokens =>
      simp only [runIters, hthink]
      split
      · exact ⟨[], by simp [loopAcc], by simp⟩
      · split
        · refine ⟨[i], ?_, by simp⟩
          simp [successAcc, thinkEvalAcc_evalCalls]
        · rcases ih (i + 1)
            (thinkEvalAcc hash events i solution
              { acc with total_tokens := acc.total_tokens + tokens }) with
            ⟨L, hL, hge⟩
          refine ⟨i :: L, ?_, ?_⟩
          · rw [hL, thinkEvalAcc_evalCalls]
            simp
          · intro j hj
            rcases List.mem_cons.mp hj with h1 | h2
            · omega
            · have := hge j h2
              omega

/-- Helper: the best-tracking invariant holds at every state the loop can
produce from a state satisfying it. -/
theorem runIters_good (hash : String → String) (th : ℚ)
    (events : ℕ → IterEvent) :
    ∀ (remaining i : ℕ) (acc : RunAcc), GoodAcc events acc →
    GoodAcc events (runIters hash th events remaining i acc).acc := by
  intro remaining
  induction remaining with
  | zero =>
    intro i acc hgood
    simpa [runIters] using hgood
  | succ n ih =>
    intro i acc hgood
    cases hthink : (events i).think with
    | err msg =>
      simp only [runIters, hthink]
      exact ⟨hgood.1, hgood.2⟩
    | ok solution tokens =>
      have hgood1 : GoodAcc events
          { acc with total_tokens := acc.total_tokens + tokens } :=
        ⟨hgood.1, hgood.2⟩
      simp only [runIters, hthink]
      split
      · exact ⟨hgood1.1, hgood1.2⟩
      · split
        · have := thinkEvalAcc_good hash events i solution tokens
            { acc with total_tokens := acc.total_tokens + tokens }
            hthink hgood1
          exact ⟨this.1, this.2⟩
        · exact ih (i + 1) _
            (thinkEvalAcc_good hash events i solution tokens
              { acc with total_tokens := acc.total_tokens + tokens }
              hthink hgood1)

/-- Helper: the loop's best score is monotone and bounds every score it
evaluated. -/
theorem runIters_best_bounds (hash : String → String) (th : ℚ)
    (events : ℕ → IterEvent) :
    ∀ (remaining i : ℕ) (acc : RunAcc),
    acc.best_score ≤ (runIters hash th events remaining i acc).acc.best_score ∧
    ∀ j ∈ (runIters hash th events remaining i acc).acc.evalCalls,
      j ∉ acc.evalCalls →
      (events j).evalScore ≤
        (runIters hash th events remaining i acc).acc.best_score := by
  intro remaining
  induction remaining with
  | zero =>
    intro i acc
    refine ⟨by simp [runIters], ?_⟩
    intro j hj hnj
    simp only [runIters] at hj
    exact absurd hj hnj
  | succ n ih =>
    intro i acc
    cases hthink : (events i).think with
    | err msg =>
      simp only [runIters, hthink, errAcc]
      refine ⟨le_refl _, ?_⟩
      intro j hj hnj
      exact absurd hj hnj
    | ok solution tokens =>
      simp only [runIters, hthink]
      split
      · simp only [loopAcc]
        refine ⟨le_refl _, ?_⟩
        intro j hj hnj
        exact absurd hj hnj
      · set acc1 : RunAcc :=
          { acc with total_tokens := acc.total_tokens + tokens } with hacc1
        split
        · constructor
          · simpa [successAcc] using
              thinkEvalAcc_best_mono hash events i solution acc1
          · intro j hj hnj
            simp only [successAcc, thinkEvalAcc_evalCalls] at hj
            rcases List.mem_append.mp hj with h1 | h2
            · exact absurd h1 hnj
            · have hji : j = i := by simpa using h2
              subst hji
              simpa [successAcc] using
                thinkEvalAcc_score_le hash events j solution acc1
        · have hmono := (ih (i + 1) (thinkEvalAcc hash events i solution acc1)).1
          have hbound := (ih (i + 1) (thinkEvalAcc hash events i solution acc1)).2
          constructor
          · exact le_trans
              (thinkEvalAcc_best_mono hash events i solution acc1) hmono
          · intro j hj hnj
            by_cases hj4 : j ∈ (thinkEvalAcc hash events i solution acc1).evalCalls
            · rw [thinkEvalAcc_evalCalls] at hj4
              rcases List.mem_append.mp hj4 with h1 | h2
              · exact absurd h1 hnj
              · have hji : j = i := by simpa using h2
                subst hji
                exact le_trans
                  (thinkEvalAcc_score_le hash events j solution acc1) hmono
            · exact hbound j hj hj4

/-- Helper: if the loop evaluates some iteration `j` at or above the
threshold, the run terminates early, no later iteration is evaluated, and
no trajectory entry beyond iteration `j` is recorded. -/
theorem runIters_threshold_stop (hash : String → String) (th : ℚ)
    (events : ℕ → IterEvent) :
    ∀ (remaining i : ℕ) (acc : RunAcc) (j : ℕ),
    j ∈ (runIters hash th events remaining i acc).acc.evalCalls →
    j ∉ acc.evalCalls →
    th ≤ (events j).evalScore →
    (runIters hash th events remaining i acc).early_termination = true ∧
    (∀ j2 ∈ (runIters hash th events remaining i acc).acc.evalCalls,
      j2 ∉ acc.evalCalls → j2 ≤ j) ∧
    (∀ e ∈ (runIters hash th events remaining i acc).acc.trajectory,
      e ∉ acc.trajectory → e.iteration ≤ j) := by
  intro remaining
  induction remaining with
  | zero =>
    intro i acc j hj hnj _
    simp only [runIters] at hj
    exact absurd hj hnj
  | succ n ih =>
    intro i acc j hj hnj hth
    cases hthink : (events i).think with
    | err msg =>
      simp only [runIters, hthink, errAcc] at hj
      exact absurd hj hnj
    | ok solution tokens =>
      simp only [runIters, hthink] at hj ⊢
      set acc1 : RunAcc :=
        { acc with total_tokens := acc.total_tokens + tokens } with hacc1
      have he1 : acc1.evalCalls = acc.evalCalls := by rw [hacc1]
      have ht1 : acc1.trajectory = acc.trajectory := by rw [hacc1]
      by_cases hmem : hash solution ∈ acc1.hashes
      · rw [if_pos hmem] at hj
        simp only [loopAcc, he1] at hj
        exact absurd hj hnj
      · rw [if_neg hmem] at hj ⊢
        by_cases hts : (events i).evalScore ≥ th
        · rw [if_pos hts] at hj ⊢
          have hevals :
              (successAcc i (thinkEvalAcc hash events i solution
                acc1)).evalCalls = acc.evalCalls ++ [i] := by
            simp [successAcc, thinkEvalAcc_evalCalls, he1]
          have htraj :
              (successAcc i (thinkEvalAcc hash events i solution
                acc1)).trajectory = acc.trajectory ++
                [{ iteration := i, action := TrajAction.think,
                   output := solution },
                 { iteration := i, action := TrajAction.evaluate,
                   output := (events i).evalFeedback },
                 { iteration := i, action := TrajAction.success,
                   output := "Success threshold reached" }] := by
            simp [successAcc, thinkEvalAcc_trajectory, ht1]
          simp only [hevals] at hj
          have hji : j = i := by
            rcases List.mem_append.mp hj with h1 | h2
            · exact absurd h1 hnj
            · simpa using h2
          subst hji
          refine ⟨rfl, ?_, ?_⟩
          · intro j2 hj2 hnj2
            simp only [hevals] at hj2
            rcases List.mem_append.mp hj2 with h1 | h2
            · exact absurd h1 hnj2
            · have : j2 = j := by simpa using h2
              omega
          · intro e he hne
            simp only [htraj] at he
            rcases List.mem_append.mp he with h1 | h2
            · exact absurd h1 hne
            · simp only [List.mem_cons, List.mem_singleton,
                List.not_mem_nil, or_false] at h2
              rcases h2 with rfl | rfl | rfl <;> exact le_refl _
        · rw [if_neg hts] at hj ⊢
          have hji : j ≠ i := fun h => hts (h ▸ hth)
          have hnj4 : j ∉ (thinkEvalAcc hash events i solution
              acc1).evalCalls := by
            rw [thinkEvalAcc_evalCalls, he1]
            intro hc
            rcases List.mem_append.mp hc with h1 | h2
            · exact hnj h1
            · exact hji (by simpa using h2)
          obtain ⟨h1, h2, h3⟩ := ih (i + 1)
            (thinkEvalAcc hash events i solution acc1) j hj hnj4 hth
          have hige : i + 1 ≤ j := by
            rcases runIters_evalCalls_extend hash th events n (i + 1)
              (thinkEvalAcc hash events i solution acc1) with ⟨L, hL, hgeL⟩
            rw [hL] at hj
            rcases List.mem_append.mp hj with hL1 | hL2
            · exact absurd hL1 hnj4
            · exact hgeL j hL2
          refine ⟨h1, ?_, ?_⟩
          · intro j2 hj2 hnj2
            by_cases hj24 : j2 ∈ (thinkEvalAcc hash events i solution
                acc1).evalCalls
            · rw [thinkEvalAcc_evalCalls, he1] at hj24
              rcases List.mem_append.mp hj24 with ha | hb
              · exact absurd ha hnj2
              · have : j2 = i := by simpa using hb
                omega
            · exact h2 j2 hj2 hj24
          · intro e he hne
            by_cases he4 : e ∈ (thinkEvalAcc hash events i solution
                acc1).trajectory
            · rw [thinkEvalAcc_trajectory, ht1] at he4
              rcases List.mem_append.mp he4 with ha | hb
              · exact absurd ha hne
              · simp only [List.mem_cons, List.mem_singleton,
                  List.not_mem_nil, or_false] at hb
                rcases hb with rfl | rfl <;> · simp only; omega
            · exact h3 e he he4

/-- Helper: the result `solve_task` returns carries the best evaluated
score; when it is positive, the returned solution is a solution generated
at an iteration achieving that score; when it is zero, the fallback text is
returned. -/
theorem solve_task_best_characterization (hash : String → String) (th : ℚ)
    (events : ℕ → IterEvent) (max_iterations : ℕ) :
    (∀ j ∈ (solve_task hash th max_iterations events).2,
      (events j).evalScore ≤ (solve_task hash th max_iterations events).1.score) ∧
    (0 < (solve_task hash th max_iterations events).1.score →
      ∃ j ∈ (solve_task hash th max_iterations events).2,
        (events j).evalScore = (solve_task hash th max_iterations events).1.score ∧
        ∃ tok, (events j).think = ThinkOutcome.ok
          (solve_task hash th max_iterations events).1.solution tok) ∧
    ((solve_task hash th max_iterations events).1.score = 0 →
      (solve_task hash th max_iterations events).1.solution =
        "Failed to generate solution") := by
  have hgood := runIters_good hash th events max_iterations 1 initialRunAcc
    ⟨fun s h => by simp [initialRunAcc] at h, fun _ => rfl⟩
  have hbounds := runIters_best_bounds hash th events max_iterations 1
    initialRunAcc
  rcases hbs : (runIters hash th events max_iterations 1
      initialRunAcc).acc.best_solution with _ | s
  · have hzero := hgood.2 hbs
    refine ⟨?_, ?_, ?_⟩
    · intro j hj
      simp only [solve_task, hbs] at hj ⊢
      have := hbounds.2 j hj (by simp [initialRunAcc])
      rw [hzero] at this
      exact this
    · intro hpos
      simp only [solve_task, hbs] at hpos
      exact absurd hpos (by norm_num)
    · intro _
      simp only [solve_task, hbs]
  · rcases hgood.1 s hbs with ⟨hpos, j, hj, hsc, tok, hok⟩
    refine ⟨?_, ?_, ?_⟩
    · intro j2 hj2
      simp only [solve_task, hbs] at hj2 ⊢
      exact hbounds.2 j2 hj2 (by simp [initialRunAcc])
    · intro _
      simp only [solve_task, hbs]
      exact ⟨j, hj, hsc, tok, hok⟩
    · intro hz
      simp only [solve_task, hbs] at hz
      rw [hz] at hpos
      exact absurd hpos (by norm_num)

/-- C2 amended: once an iteration is evaluated at or above
`success_threshold`, the run stops at that iteration (no later iteration is
executed or evaluated) with `early_termination = true`; the returned score
bounds every evaluated score; when the returned score is positive — always
the case when `success_threshold > 0` — the returned solution is one
generated at an iteration evaluated at exactly that (best) score; when
every executed iteration scored 0.0 (possible only with
`success_threshold ≤ 0`), the fallback text "Failed to generate solution"
with score 0.0 is returned instead of any generated solution. -/
theorem solve_task_early_termination_amended (hash : String → String)
    (th : ℚ) (events : ℕ → IterEvent) (max_iterations j : ℕ)
    (hj : j ∈ (solve_task hash th max_iterations events).2)
    (hth : th ≤ (events j).evalScore) :
    (solve_task hash th max_iterations events).1.early_termination = true ∧
    (∀ j2 ∈ (solve_task hash th max_iterations events).2, j2 ≤ j) ∧
    (∀ e ∈ (solve_task hash th max_iterations events).1.trajectory,
      e.iteration ≤ j) ∧
    (∀ j2 ∈ (solve_task hash th max_iterations events).2,
      (events j2).evalScore ≤
        (solve_task hash th max_iterations events).1.score) ∧
    (0 < (solve_task hash th max_iterations events).1.score →
      ∃ j2 ∈ (solve_task hash th max_iterations events).2,
        (events j2).evalScore =
          (solve_task hash th max_iterations events).1.score ∧
        ∃ tok, (events j2).think = ThinkOutcome.ok
          (solve_task hash th max_iterations events).1.solution tok) ∧
    ((solve_task hash th max_iterations events).1.score = 0 →
      (solve_task hash th max_iterations events).1.solution =
        "Failed to generate solution") := by
  have hchar := solve_task_best_characterization hash th events max_iterations
  have hj0 : j ∈ (runIters hash th events max_iterations 1
      initialRunAcc).acc.evalCalls := by
    simpa [solve_task] using hj
  obtain ⟨h1, h2, h3⟩ := runIters_threshold_stop hash th events
    max_iterations 1 initialRunAcc j hj0 (by simp [initialRunAcc]) hth
  refine ⟨?_, ?_, ?_, hchar.1, hchar.2.1, hchar.2.2⟩
  · simpa [solve_task] using h1
  · intro j2 hj2
    exact h2 j2 (by simpa [solve_task] using hj2) (by simp [initialRunAcc])
  · intro e he
    exact h3 e (by simpa [solve_task] using he) (by simp [initialRunAcc])

/-- C2 counterexample: with `success_threshold = 0` and a single iteration
whose generated solution "solA" is evaluated at exactly 0.0, the run stops
with `earlyTermination = true` — but because the best-solution tracker only
updates on a score strictly above its 0.0 initialization, the returned
solution is the fallback text, not "solA", the best-scoring (indeed only)
solution across all executed iterations. -/
theorem early_termination_zero_counterexample :
    (solve_task (fun s => s) 0 1 c2xevents).1.early_termination = true ∧
    (solve_task (fun s => s) 0 1 c2xevents).2 = [1] ∧
    (c2xevents 1).evalScore = 0 ∧
    { iteration := 1, action := TrajAction.think, output := "solA" } ∈
      (solve_task (fun s => s) 0 1 c2xevents).1.trajectory ∧
    (solve_task (fun s => s) 0 1 c2xevents).1.score = 0 ∧
    (solve_task (fun s => s) 0 1 c2xevents).1.solution =
      "Failed to generate solution" ∧
    (solve_task (fun s => s) 0 1 c2xevents).1.solution ≠ "solA" := by
  refine ⟨by decide, by decide, by decide, by decide, by decide, by decide,
    by decide⟩

/-- Witness for `solve_task_early_termination_amended`: threshold 2, three
allowed iterations; iteration 1 scores 1, iteration 2 scores 3 ≥ 2, so the
run stops at iteration 2 with the solution "B" of score 3. -/
theorem solve_task_early_termination_amended_witness :
    (solve_task (fun s => s) 2 3 c2events).1.early_termination = true ∧
    (solve_task (fun s => s) 2 3 c2events).2 = [1, 2] ∧
    (solve_task (fun s => s) 2 3 c2events).1.solution = "B" ∧
    (solve_task (fun s => s) 2 3 c2events).1.score = 3 := by
  have h := solve_task_early_termination_amended (fun s => s) 2 c2events 3 2
    (by decide) (by decide)
  exact ⟨h.1, by decide, by decide, by decide⟩

/-- C3: if the solution generated at an iteration hashes to a hash already
seen earlier in the run (the seen-set is cleared at the start of each run),
the loop appends exactly one loop-detected trajectory entry and terminates
with `loopDetected = true`; `_evaluate_step` is not invoked for that
iteration — nor ever again in the run (`iterative_agent.py:236-248`). -/
theorem loop_detection_terminates (hash : String → String) (th : ℚ)
    (events : ℕ → IterEvent) (remaining i : ℕ) (acc : RunAcc)
    (solution : String) (tokens : ℕ)
    (hthink : (events i).think = ThinkOutcome.ok solution tokens)
    (hseen : hash solution ∈ acc.hashes) :
    runIters hash th events (remaining + 1) i acc =
      { acc := loopAcc i
          { acc with total_tokens := acc.total_tokens + tokens },
        early_termination := false, loop_detected := true } ∧
    (runIters hash th events (remaining + 1) i acc).loop_detected = true ∧
    (runIters hash th events (remaining + 1) i acc).acc.evalCalls =
      acc.evalCalls ∧
    (runIters hash th events (remaining + 1) i acc).acc.trajectory =
      acc.trajectory ++
        [{ iteration := i, action := TrajAction.loop_detected,
           output := "Reasoning loop detected, terminating" }] := by
  have h1 : runIters hash th events (remaining + 1) i acc =
      { acc := loopAcc i
          { acc with total_tokens := acc.total_tokens + tokens },
        early_termination := false, loop_detected := true } := by
    simp only [runIters, hthink]
    rw [if_pos hseen]
  refine ⟨h1, by rw [h1], by rw [h1]; simp [loopAcc],
    by rw [h1]; simp [loopAcc]⟩

/-- Witness for `loop_detection_terminates`: iteration 2 regenerates the
byte-identical text already hashed at iteration 1, so the run (threshold 5,
identity hash) ends with `loopDetected = true`, no second evaluation, and a
loop-detected trajectory entry. -/
theorem loop_detection_terminates_witness :
    (solve_task (fun s => s) 5 3 c3events).1.loop_detected = true ∧
    (solve_task (fun s => s) 5 3 c3events).2 = [1] ∧
    runIters (fun s => s) 5 c3events 2 2
        (thinkEvalAcc (fun s => s) c3events 1 "Same solution text"
          { initialRunAcc with total_tokens := 2 }) =
      { acc := loopAcc 2
          { (thinkEvalAcc (fun s => s) c3events 1 "Same solution text"
              { initialRunAcc with total_tokens := 2 }) with
            total_tokens := (thinkEvalAcc (fun s => s) c3events 1
              "Same solution text"
              { initialRunAcc with total_tokens := 2 }).total_tokens + 2 },
        early_termination := false, loop_detected := true } := by
  have h := loop_detection_terminates (fun s => s) 5 c3events 1 2
    (thinkEvalAcc (fun s => s) c3events 1 "Same solution text"
      { initialRunAcc with total_tokens := 2 })
    "Same solution text" 2 (by decide) (by decide)
  exact ⟨by decide, by decide, h.1⟩

/-- C6 amended: an unrecoverable generation or token-budget error at an
iteration never escapes the loop: the loop appends exactly one error
trajectory entry for that iteration, terminates (no further iteration runs,
no further evaluation happens, the best solution and score are untouched)
and `solve_task` still returns a result.  The returned score bounds every
evaluated score, so whenever any completed iteration scored above 0.0 the
returned score is positive and the returned solution is one generated at
an iteration evaluated at exactly that maximal score — the best solution
found so far; when every evaluation scored 0.0, the fallback text "Failed
to generate solution" with score 0.0 is returned instead (the tracker only
records solutions scoring strictly above 0.0). -/
theorem error_containment_amended (hash : String → String) (th : ℚ)
    (events : ℕ → IterEvent) :
    (∀ (remaining i : ℕ) (acc : RunAcc) (msg : String),
      (events i).think = ThinkOutcome.err msg →
      runIters hash th events (remaining + 1) i acc =
        { acc := errAcc i msg acc,
          early_termination := false, loop_detected := false }) ∧
    (∀ max_iterations : ℕ,
      (∀ j ∈ (solve_task hash th max_iterations events).2,
        (events j).evalScore ≤
          (solve_task hash th max_iterations events).1.score) ∧
      (0 < (solve_task hash th max_iterations events).1.score →
        ∃ j ∈ (solve_task hash th max_iterations events).2,
          (events j).evalScore =
            (solve_task hash th max_iterations events).1.score ∧
          ∃ tok, (events j).think = ThinkOutcome.ok
            (solve_task hash th max_iterations events).1.solution tok) ∧
      ((solve_task hash th max_iterations events).1.score = 0 →
        (solve_task hash th max_iterations events).1.solution =
          "Failed to generate solution")) := by
  constructor
  · intro remaining i acc msg hthink
    simp only [runIters, hthink]
  · intro max_iterations
    have hchar := solve_task_best_characterization hash th events
      max_iterations
    exact ⟨hchar.1, hchar.2.1, hchar.2.2⟩

/-- C6 counterexample: threshold 2 (so no early termination), iteration 1
generates "A" evaluated at exactly 0.0, iteration 2 raises a generation
error.  The loop records the error entry and stops as specified, but the
returned result carries the fallback text, not "A" — the best (and only)
solution found so far. -/
theorem error_best_so_far_counterexample :
    (solve_task (fun s => s) 2 3 c6events).1.trajectory =
      [{ iteration := 1, action := TrajAction.think, output := "A" },
       { iteration := 1, action := TrajAction.evaluate, output := "fb" },
       { iteration := 2, action := TrajAction.error,
         output := "Error: boom" }] ∧
    (solve_task (fun s => s) 2 3 c6events).2 = [1] ∧
    (c6events 1).evalScore = 0 ∧
    (solve_task (fun s => s) 2 3 c6events).1.score = 0 ∧
    (solve_task (fun s => s) 2 3 c6events).1.solution =
      "Failed to generate solution" ∧
    (solve_task (fun s => s) 2 3 c6events).1.solution ≠ "A" := by
  refine ⟨by decide, by decide, by decide, by decide, by decide, by decide⟩

/-- Witness for `error_containment_amended`: a run whose first think step
raises ends immediately with one error trajectory entry and returns the
fallback result. -/
theorem error_containment_amended_witness :
    runIters (fun s => s) 2 c6wEvents 1 1 initialRunAcc =
      { acc := errAcc 1 "x" initialRunAcc,
        early_termination := false, loop_detected := false } ∧
    (solve_task (fun s => s) 2 1 c6wEvents).1.solution =
      "Failed to generate solution" := by
  have h := error_containment_amended (fun s => s) 2 c6wEvents
  exact ⟨h.1 0 1 initialRunAcc "x" (by decide),
    (h.2 1).2.2 (by decide)⟩

/-! ### Theorems: MaTTS parallel search -/

/-- Helper: the scan of Python's `max` keeps an element of the input, never
decreases its running key, and bounds every key it saw. -/
theorem foldl_max_bounds :
    ∀ (cs : List MaTTSSolutionCandidate) (b b2 : MaTTSSolutionCandidate),
    b2 = cs.foldl (fun acc x => if x.score > acc.score then x else acc) b →
    (b2 = b ∨ b2 ∈ cs) ∧ b.score ≤ b2.score ∧ ∀ x ∈ cs, x.score ≤ b2.score := by
  intro cs
  induction cs with
  | nil =>
    intro b b2 hb2
    simp only [List.foldl_nil] at hb2
    subst hb2
    exact ⟨Or.inl rfl, le_refl _, by simp⟩
  | cons x cs ih =>
    intro b b2 hb2
    simp only [List.foldl_cons] at hb2
    by_cases hgt : x.score > b.score
    · rw [if_pos hgt] at hb2
      obtain ⟨hmem, hle, hall⟩ := ih x b2 hb2
      refine ⟨?_, le_trans (le_of_lt hgt) hle, ?_⟩
      · rcases hmem with h | h
        · exact Or.inr (by simp [h])
        · exact Or.inr (List.mem_cons_of_mem _ h)
      · intro y hy
        rcases List.mem_cons.mp hy with rfl | hy2
        · exact hle
        · exact hall y hy2
    · rw [if_neg hgt] at hb2
      push_neg at hgt
      obtain ⟨hmem, hle, hall⟩ := ih b b2 hb2
      refine ⟨?_, hle, ?_⟩
      · rcases hmem with h | h
        · exact Or.inl h
        · exact Or.inr (List.mem_cons_of_mem _ h)
      · intro y hy
        rcases List.mem_cons.mp hy with rfl | hy2
        · exact le_trans hgt hle
        · exact hall y hy2

/-- Helper: over a list with strictly ascending candidate ids, the scan of
Python's `max` keeps the first maximal element, so any element tied with the
result has a candidate id at least the result's. -/
theorem foldl_max_first_tie :
    ∀ (cs : List MaTTSSolutionCandidate) (b b2 : MaTTSSolutionCandidate),
    b2 = cs.foldl (fun acc x => if x.score > acc.score then x else acc) b →
    cs.Pairwise (fun a c => a.candidate_id < c.candidate_id) →
    (∀ x ∈ cs, b.candidate_id < x.candidate_id) →
    (b.score = b2.score → b2 = b) ∧
    (∀ x ∈ cs, x.score = b2.score → b2.candidate_id ≤ x.candidate_id) := by
  intro cs
  induction cs with
  | nil =>
    intro b b2 hb2 _ _
    simp only [List.foldl_nil] at hb2
    subst hb2
    exact ⟨fun _ => rfl, by simp⟩
  | cons x cs ih =>
    intro b b2 hb2 hpw hb
    simp only [List.foldl_cons] at hb2
    have hxall := (List.pairwise_cons.mp hpw).1
    have hpw2 := (List.pairwise_cons.mp hpw).2
    by_cases hgt : x.score > b.score
    · rw [if_pos hgt] at hb2
      obtain ⟨_, hle, _⟩ := foldl_max_bounds cs x b2 hb2
      obtain ⟨heq, htie⟩ := ih x b2 hb2 hpw2 hxall
      refine ⟨?_, ?_⟩
      · intro hbe
        exact absurd hbe (ne_of_lt (lt_of_lt_of_le hgt hle))
      · intro y hy hye
        rcases List.mem_cons.mp hy with rfl | hy2
        · rw [heq hye]
        · exact htie y hy2 hye
    · rw [if_neg hgt] at hb2
      push_neg at hgt
      have hball : ∀ a ∈ cs, b.candidate_id < a.candidate_id :=
        fun a ha => hb a (List.mem_cons_of_mem _ ha)
      obtain ⟨_, hle, _⟩ := foldl_max_bounds cs b b2 hb2
      obtain ⟨heq, htie⟩ := ih b b2 hb2 hpw2 hball
      refine ⟨heq, ?_⟩
      intro y hy hye
      rcases List.mem_cons.mp hy with rfl | hy2
      · have h1 : b2.score ≤ b.score := hye ▸ hgt
        have hb2b := heq (le_antisymm hle h1)
        rw [hb2b]
        exact le_of_lt (hb y (List.mem_cons_self y cs))
      · exact htie y hy2 hye

/-- Helper: a successful attempt at id `i` yields a candidate labelled `i`. -/
theorem candidateOf_id (outcomes : ℕ → CandidateOutcome) (i : ℕ)
    (c : MaTTSSolutionCandidate) (h : candidateOf outcomes i = Option.some c) :
    c.candidate_id = i := by
  unfold candidateOf at h
  cases houtcome : outcomes i <;> rw [houtcome] at h
  · simp only [Option.some.injEq] at h
    rw [← h]
  · exact absurd h (by simp)

/-- Helper: sequential generation collects candidates in strictly ascending
candidate-id order. -/
theorem generate_sequential_sorted (k : ℕ)
    (outcomes : ℕ → CandidateOutcome) :
    (generate_sequential k outcomes).Pairwise
      (fun a c => a.candidate_id < c.candidate_id) := by
  unfold generate_sequential
  refine List.Pairwise.filterMap _ ?_ (List.pairwise_lt_range' 1 k)
  intro a a2 hlt b hb b2 hb2
  rw [candidateOf_id outcomes a b hb, candidateOf_id outcomes a2 b2 hb2]
  exact hlt

/-- C4 amended: in every parallel-search run, whatever the collection order,
the selected candidate is one of the successfully generated candidates and
its score is the maximum among them.  Ties go to the first candidate in the
collected list: in sequential mode (where the list is ordered by ascending
candidate id) that is the lowest candidateId; in the thread-pool parallel
path the list is in completion order, so a tie is won by the
earliest-completed candidate, which need not be the lowest id (see the
counterexample). -/
theorem matts_selection_amended :
    (∀ (candidates : List MaTTSSolutionCandidate)
       (best : MaTTSSolutionCandidate),
       pythonMaxByScore candidates = Option.some best →
       best ∈ candidates ∧ ∀ c ∈ candidates, c.score ≤ best.score) ∧
    (∀ (k : ℕ) (outcomes : ℕ → CandidateOutcome)
       (best : MaTTSSolutionCandidate),
       pythonMaxByScore (generate_sequential k outcomes) =
         Option.some best →
       ∀ c ∈ generate_sequential k outcomes,
         c.score = best.score → best.candidate_id ≤ c.candidate_id) := by
  constructor
  · intro candidates best h
    cases candidates with
    | nil => exact absurd h (by simp [pythonMaxByScore])
    | cons c cs =>
      simp only [pythonMaxByScore, Option.some.injEq] at h
      obtain ⟨hmem, hle, hall⟩ := foldl_max_bounds cs c best h.symm
      refine ⟨?_, ?_⟩
      · rcases hmem with h2 | h2
        · exact h2 ▸ List.mem_cons_self c cs
        · exact List.mem_cons_of_mem _ h2
      · intro y hy
        rcases List.mem_cons.mp hy with rfl | hy2
        · exact hle
        · exact hall y hy2
  · intro k outcomes best h
    have hsorted := generate_sequential_sorted k outcomes
    cases hgen : generate_sequential k outcomes with
    | nil =>
      rw [hgen] at h
      exact absurd h (by simp [pythonMaxByScore])
    | cons c cs =>
      rw [hgen] at h hsorted
      simp only [pythonMaxByScore, Option.some.injEq] at h
      obtain ⟨heq, htie⟩ := foldl_max_first_tie cs c best h.symm
        (List.pairwise_cons.mp hsorted).2 (List.pairwise_cons.mp hsorted).1
      intro y hy hye
      rcases List.mem_cons.mp hy with rfl | hy2
      · rw [heq hye]
      · exact htie y hy2 hye

/-- C4 counterexample: ids 1 and 2 both score 2; in the thread-pool parallel
path candidate 2 completes first, so the collected order is id 2 then id 1,
and Python's `max` selects candidate 2 — not the tied candidate with the
lowest candidateId (1). -/
theorem parallel_tie_counterexample :
    generate_parallel_pool [2, 1] tieOutcomes =
      [{ solution := "B", score := 2, feedback := "fbB", tokens_used := 10,
         candidate_id := 2 },
       { solution := "A", score := 2, feedback := "fbA", tokens_used := 10,
         candidate_id := 1 }] ∧
    pythonMaxByScore (generate_parallel_pool [2, 1] tieOutcomes) =
      Option.some
        { solution := "B", score := 2, feedback := "fbB", tokens_used := 10,
          candidate_id := 2 } ∧
    ({ solution := "A", score := 2, feedback := "fbA", tokens_used := 10,
       candidate_id := 1 } : MaTTSSolutionCandidate) ∈
      generate_parallel_pool [2, 1] tieOutcomes ∧
    (1 : ℕ) < 2 := by
  refine ⟨by decide, by decide, by decide, by decide⟩

/-- Witness for `matts_selection_amended`: sequential generation of the two
tied outcomes collects ids in order 1, 2 and the selection is candidate 1 —
the lowest id among the tied maximum-score candidates — and its score 2
bounds every candidate's score. -/
theorem matts_selection_amended_witness :
    pythonMaxByScore (generate_sequential 2 tieOutcomes) =
      Option.some
        { solution := "A", score := 2, feedback := "fbA", tokens_used := 10,
          candidate_id := 1 } ∧
    ({ solution := "A", score := 2, feedback := "fbA", tokens_used := 10,
       candidate_id := 1 } : MaTTSSolutionCandidate) ∈
      generate_sequential 2 tieOutcomes ∧
    (∀ c ∈ generate_sequential 2 tieOutcomes,
      c.score ≤ (2 : ℚ)) ∧
    (∀ c ∈ generate_sequential 2 tieOutcomes,
      c.score = (2 : ℚ) → (1 : ℕ) ≤ c.candidate_id) := by
  have hsel : pythonMaxByScore (generate_sequential 2 tieOutcomes) =
      Option.some
        { solution := "A", score := 2, feedback := "fbA", tokens_used := 10,
          candidate_id := 1 } := by decide
  have h1 := (matts_selection_amended.1 (generate_sequential 2 tieOutcomes)
    _ hsel)
  have h2 := matts_selection_amended.2 2 tieOutcomes _ hsel
  exact ⟨hsel, h1.1, h1.2, h2⟩

/-- C5: the claim (and the source's evident intent — the call at
`iterative_agent.py:478-484` explicitly passes
`previous_solution=best_candidate.solution` and
`feedback=best_candidate.feedback`, and logs "Refining best solution") is
that the refine pass is seeded with the selected candidate's solution and
feedback.  The code is a slip: the call passes `iteration=1`, and
`_think_step` at `iteration == 1` builds `_build_generation_prompt(task,
memories)`, which never consults `previous_solution` or `feedback` — so the
refine prompt is the plain generation prompt, identical for every selected
candidate, and the pass is not seeded.  The refinement builder that the
seeding would require does depend on the seed, as the third conjunct
shows; the last conjunct evaluates the failing input: two different
selected candidates yield byte-identical refine prompts. -/
theorem matts_refine_unseeded :
    (∀ (task : String) (memories : List String)
       (best : MaTTSSolutionCandidate),
       matts_refine_prompt task memories best =
         build_generation_prompt task memories) ∧
    (∀ (task : String) (memories : List String)
       (b1 b2 : MaTTSSolutionCandidate),
       matts_refine_prompt task memories b1 =
         matts_refine_prompt task memories b2) ∧
    build_refinement_prompt "Sample task text" "SOL-A" "FB-A" [] ≠
      build_refinement_prompt "Sample task text" "SOL-B" "FB-B" [] ∧
    matts_refine_prompt "Sample task text" []
        { solution := "SOL-A", score := 1, feedback := "FB-A",
          tokens_used := 5, candidate_id := 1 } =
      matts_refine_prompt "Sample task text" []
        { solution := "SOL-B", score := 1, feedback := "FB-B",
          tokens_used := 5, candidate_id := 2 } := by
  have hgen : ∀ (task : String) (memories : List String)
      (best : MaTTSSolutionCandidate),
      matts_refine_prompt task memories best =
        build_generation_prompt task memories := by
    intro task memories best
    unfold matts_refine_prompt think_step_prompt
    rw [if_pos rfl]
  refine ⟨hgen, ?_, ?_, ?_⟩
  · intro task memories b1 b2
    rw [hgen, hgen]
  · decide
  · rw [hgen, hgen]

end Mattthinking
